import Mathlib

/-!
Verification of the marker recovery-and-validation pipeline
(`tools/complete_markers.py` and `tools/qualify_marker_set.py`).

The Python code is shallowly embedded: Python/YAML values become the
inductive type `Val`, Python dicts become ordered association lists
`List (String × Val)` (Python dicts preserve insertion order and have
unique keys), and operations that can raise exceptions return `Option`.
Strings are modelled as Lean `String` / `List Char`; the ASCII fragment
of Python whitespace and case conversion is used, which covers every
string the pipeline itself synthesizes.
-/

/-- A Python value as produced by `yaml.safe_load`: `None`, booleans,
integers, strings, lists and dicts.  (Floats are omitted: no claim under
verification exercises them.) -/
inductive Val where
  | null : Val
  | bool : Bool → Val
  | int : Int → Val
  | str : String → Val
  | list : List Val → Val
  | map : List (String × Val) → Val

mutual

/-- Python `==` on values (restricted to the forms `Val` covers; the
Python quirk `True == 1` is not modelled, no claim exercises it). -/
def valBEq : Val → Val → Bool
  | Val.null, Val.null => true
  | Val.bool a, Val.bool b => a == b
  | Val.int a, Val.int b => a == b
  | Val.str a, Val.str b => a == b
  | Val.list a, Val.list b => valListBEq a b
  | Val.map a, Val.map b => valMapBEq a b
  | _, _ => false

def valListBEq : List Val → List Val → Bool
  | [], [] => true
  | x :: xs, y :: ys => valBEq x y && valListBEq xs ys
  | _, _ => false

def valMapBEq : List (String × Val) → List (String × Val) → Bool
  | [], [] => true
  | (k, v) :: xs, (k', v') :: ys => k == k' && valBEq v v' && valMapBEq xs ys
  | _, _ => false

end

/-- Python truthiness of a `Val` (`if data:`): `None`, `False`, `0`, `""`,
`[]` and `{}` are falsy, everything else truthy. -/
def truthy : Val → Bool
  | Val.null => false
  | Val.bool b => b
  | Val.int n => n ≠ 0
  | Val.str s => s ≠ ""
  | Val.list xs => ¬ xs.isEmpty
  | Val.map kvs => ¬ kvs.isEmpty

/-- Dict lookup, `d[k]` / `d.get(k)`: first binding of the key (Python
dicts have unique keys; for association lists with duplicates the first
binding wins). -/
def dGet : List (String × Val) → String → Option Val
  | [], _ => none
  | (k', v) :: rest, k => if k' = k then some v else dGet rest k

/-- Dict lookup with default, `d.get(k, default)`. -/
def dGetD (d : List (String × Val)) (k : String) (dflt : Val) : Val :=
  match dGet d k with
  | some v => v
  | none => dflt

/-- Key membership, `k in d`. -/
def dMem (k : String) (d : List (String × Val)) : Bool :=
  (dGet d k).isSome

/-- Dict assignment `d[k] = v`: overwrite in place if the key exists
(keeping its position, as Python dicts do), else append at the end. -/
def dSet : List (String × Val) → String → Val → List (String × Val)
  | [], k, v => [(k, v)]
  | (k', v') :: rest, k, v =>
    if k' = k then (k, v) :: rest else (k', v') :: dSet rest k v

/-- The keys of a dict, in order. -/
def dKeys (d : List (String × Val)) : List String := d.map Prod.fst

/-- Python `len(v)`: defined for strings, lists and dicts; `none` models
the `TypeError` raised on other values. -/
def pyLen : Val → Option Nat
  | Val.str s => some s.length
  | Val.list xs => some xs.length
  | Val.map kvs => some kvs.length
  | _ => none

/-- Python `s in v` for a string `s`: key membership for dicts, element
membership for lists, substring test for strings; `none` models the
`TypeError` on non-container values. -/
def subInfix (pat : List Char) : List Char → Bool
  | [] => pat.isEmpty
  | s@(_ :: rest) => pat.isPrefixOf s || subInfix pat rest

/-- Substring containment on strings, `needle in haystack`. -/
def strContainsSub (haystack needle : String) : Bool :=
  subInfix needle.data haystack.data

def pyIn (s : String) : Val → Option Bool
  | Val.map kvs => some (dMem s kvs)
  | Val.list xs => some (xs.any (valBEq (Val.str s)))
  | Val.str h => some (strContainsSub h s)
  | _ => none

/-- Whether a `Val` is hashable in Python (usable as a set element). -/
def isHashable : Val → Bool
  | Val.list _ => false
  | Val.map _ => false
  | _ => true

/-- Order-preserving deduplication (first occurrence kept), with Python
`==` as the equality. -/
def dedupGo (seen : List Val) : List Val → List Val
  | [] => []
  | x :: xs =>
    if seen.any (valBEq x) then dedupGo seen xs
    else x :: dedupGo (x :: seen) xs

def dedupFirst (xs : List Val) : List Val := dedupGo [] xs

/-- Python `list(set(v))`, as used for tag deduplication.  Succeeds on a
list of hashable values, a string (set of its characters) or a dict (set
of its keys); `none` models the `TypeError` on non-iterables or the
unhashable-element error.  Python set iteration order is unspecified; the
model keeps first occurrences.  (No claim depends on the order.) -/
def pySetList : Val → Option (List Val)
  | Val.list xs =>
    if xs.all isHashable then some (dedupFirst xs) else none
  | Val.str s => some (dedupFirst (s.data.map fun c => Val.str (String.mk [c])))
  | Val.map kvs => some (dedupFirst (kvs.map fun kv => Val.str kv.1))
  | _ => none

mutual

/-- Python `repr` of a `Val` (used by `str()` on non-string values, e.g.
inside f-strings).  Strings are rendered with single quotes; Python would
switch quote style for strings containing a quote, a detail irrelevant to
every claim. -/
def pyRepr : Val → String
  | Val.null => "None"
  | Val.bool true => "True"
  | Val.bool false => "False"
  | Val.int n => toString n
  | Val.str s => "\x27" ++ s ++ "\x27"
  | Val.list xs => "[" ++ pyReprList xs ++ "]"
  | Val.map kvs => "\x7b" ++ pyReprMap kvs ++ "\x7d"

def pyReprList : List Val → String
  | [] => ""
  | [x] => pyRepr x
  | x :: xs => pyRepr x ++ ", " ++ pyReprList xs

def pyReprMap : List (String × Val) → String
  | [] => ""
  | [(k, v)] => "\x27" ++ k ++ "\x27: " ++ pyRepr v
  | (k, v) :: kvs => "\x27" ++ k ++ "\x27: " ++ pyRepr v ++ ", " ++ pyReprMap kvs

end

/-- Python `str(v)`: the string itself for strings, otherwise `repr`-like
rendering. -/
def pyStr : Val → String
  | Val.str s => s
  | v => pyRepr v

/-! ### String helpers (Python `str` methods, ASCII fragment) -/

/-- ASCII Python whitespace (`str.strip` default set and regex `\s`). -/
def isPySpace (c : Char) : Bool :=
  c = ' ' ∨ c = '\t' ∨ c = '\n' ∨ c = '\x0d' ∨ c = '\x0b' ∨ c = '\x0c'

/-- Python `s.strip()` on a character list. -/
def pyStrip (s : List Char) : List Char :=
  ((s.dropWhile isPySpace).reverse.dropWhile isPySpace).reverse

/-- Python `s.rstrip()` on a character list. -/
def pyRstrip (s : List Char) : List Char :=
  (s.reverse.dropWhile isPySpace).reverse

/-- Python `s.strip()` on a `String`. -/
def pyStripS (s : String) : String := String.mk (pyStrip s.data)

/-- Python `s.strip(chars)` for the single character `"`
(`ex.strip('"')`). -/
def stripQuotes (s : String) : String :=
  String.mk (((s.data.dropWhile (· = '"')).reverse.dropWhile (· = '"')).reverse)

/-- Python `s.lower()` (ASCII). -/
def pyLower (s : String) : String := String.mk (s.data.map Char.toLower)

/-- Python `s.startswith(p)`. -/
def pyStartsWith (s p : String) : Bool := p.data.isPrefixOf s.data

/-- Python `content.split('\n')` on a character list.  `split` never
returns an empty list: the empty string yields `[[]]`. -/
def splitNl : List Char → List (List Char)
  | [] => [[]]
  | '\n' :: rest => [] :: splitNl rest
  | c :: rest =>
    match splitNl rest with
    | [] => [[c]]
    | l :: ls => (c :: l) :: ls

/-- `'\n'.join`, the inverse of `splitNl` on newline-free pieces. -/
def joinNl : List (List Char) → List Char
  | [] => []
  | [l] => l
  | l :: ls => l ++ '\n' :: joinNl ls

/-- Python `s.split(sep, 1)` at the first colon: returns the part before
the first `':'` and the part after it (the line is known to contain one
when this is used). -/
def splitFirstColon : List Char → List Char × List Char
  | [] => ([], [])
  | ':' :: rest => ([], rest)
  | c :: rest =>
    match splitFirstColon rest with
    | (l, r) => (c :: l, r)

/-- Python `s.replace(pat, repl)`: left-to-right, non-overlapping, via a
length-sized fuel (each step consumes at least one character, so the fuel
never runs out). -/
def pyReplaceGo (pat repl : List Char) : Nat → List Char → List Char
  | _, [] => []
  | 0, s => s
  | fuel + 1, s@(c :: rest) =>
    if pat ≠ [] ∧ pat.isPrefixOf s then
      repl ++ pyReplaceGo pat repl fuel (s.drop pat.length)
    else
      c :: pyReplaceGo pat repl fuel rest

def pyReplace (s pat repl : String) : String :=
  String.mk (pyReplaceGo pat.data repl.data s.data.length s.data)

/-! ### `complete_markers.py` — `YAMLRepairer` -/

/-- `CONFIG['MIN_EXAMPLES']` (shared by both scripts). -/
def MIN_EXAMPLES : Nat := 5

/-- `content.replace('---', '')`: removes every `---` occurrence,
scanning left to right (specialised model of `str.replace`). -/
def removeTripleDash : List Char → List Char
  | '-' :: '-' :: '-' :: rest => removeTripleDash rest
  | c :: rest => c :: removeTripleDash rest
  | [] => []

/-- `content.replace('\t', '  ')`. -/
def replaceTabs : List Char → List Char
  | '\t' :: rest => ' ' :: ' ' :: replaceTabs rest
  | c :: rest => c :: replaceTabs rest
  | [] => []

def isIdentStart (c : Char) : Bool :=
  ('a' ≤ c ∧ c ≤ 'z') ∨ ('A' ≤ c ∧ c ≤ 'Z') ∨ c = '_'

def isIdentChar (c : Char) : Bool :=
  isIdentStart c ∨ ('0' ≤ c ∧ c ≤ '9')

/-- `re.match(r'^[a-zA-Z_][a-zA-Z0-9_]*$', ...)` as a predicate on the
full (stripped) line. -/
def isIdentLine : List Char → Bool
  | [] => false
  | c :: rest => isIdentStart c ∧ rest.all isIdentChar

/-- The per-line body of the missing-colon repair: if the stripped line
is non-empty, does not start with `-`, the line contains no colon, and
the stripped line is a bare identifier, append `:` to the right-stripped
line. -/
def fixHeaderLine (line : List Char) : List Char :=
  let st := pyStrip line
  if st ≠ [] ∧ st.head? ≠ some '-' ∧ ¬ line.contains ':' ∧ isIdentLine st then
    pyRstrip line ++ [':']
  else line

/-- One attempt of the multiline regex `^\s*-\s*"(.+)"$` at a line-start
position: skip whitespace (which, like Python `\s`, may cross newlines),
expect `-`, skip whitespace, expect `"`, then require the remainder of
that line to be a non-empty group followed by a closing `"` at the line
end.  Returns the captured group and the unconsumed suffix (which starts
with `'\n'` or is empty). -/
def quoteSeek (r : List Char) : Option (List Char × List Char) :=
  match r.dropWhile isPySpace with
  | '"' :: r4 =>
    let lineRest := r4.takeWhile (· ≠ '\n')
    if 2 ≤ lineRest.length ∧ lineRest.getLast? = some '"' then
      some (lineRest.dropLast, r4.dropWhile (· ≠ '\n'))
    else none
  | _ => none

def tryMatchAt (s : List Char) : Option (List Char × List Char) :=
  match s.dropWhile isPySpace with
  | '-' :: r2 => quoteSeek r2
  | _ => none

/-- The replacement `r'  - "\1"'`. -/
def itemRepl (g : List Char) : List Char :=
  ' ' :: ' ' :: '-' :: ' ' :: '"' :: g ++ ['"']

/-- The scan loop of `re.sub(r'^\s*-\s*"(.+)"$', r'  - "\1"', content,
flags=re.MULTILINE)`: the pattern is anchored at `^`, so matches can only
start at line starts; on a match the matched span is replaced and the
scan resumes after it (at the `'\n'` the `$` did not consume), otherwise
the whole current line is emitted unchanged.  The fuel is the length of
the remaining input, which every step strictly decreases. -/
def qsubGo : Nat → List Char → List Char
  | 0, s => s
  | fuel + 1, s =>
    if s.isEmpty then [] else
    match tryMatchAt s with
    | some (g, rest) =>
      itemRepl g ++
        match rest with
        | '\n' :: r => '\n' :: qsubGo fuel r
        | _ => rest
    | none =>
      s.takeWhile (· ≠ '\n') ++
        match s.dropWhile (· ≠ '\n') with
        | '\n' :: r => '\n' :: qsubGo fuel r
        | rest => rest

def quotedItemSub (s : List Char) : List Char := qsubGo s.length s

/-- `YAMLRepairer.repair_yaml_content` on character lists: strip document
separators, convert tabs, colonize bare-identifier lines, canonicalize
quoted list items. -/
def repairChars (content : List Char) : List Char :=
  let c1 := removeTripleDash content
  let c2 := replaceTabs c1
  let c3 := joinNl ((splitNl c2).map fixHeaderLine)
  quotedItemSub c3

/-- `YAMLRepairer.repair_yaml_content`. -/
def repair_yaml_content (content : String) : String :=
  String.mk (repairChars content.data)

/-- Whether the list begins with three dashes (the `replace` pattern). -/
def startsTriple (s : List Char) : Bool := decide (s.take 3 = ['-', '-', '-'])

/-- No occurrence of `---` anywhere in the list. -/
def noTriple : List Char → Bool
  | [] => true
  | c :: r => !startsTriple (c :: r) && noTriple r

/-- The suffixes of a text that start at line boundaries (the scan
positions of the multiline substitution). -/
inductive LineTail : List Char → List Char → Prop where
  | refl (s : List Char) : LineTail s s
  | step {s r t : List Char} (h : s.dropWhile (· ≠ '\n') = '\n' :: r)
      (ht : LineTail r t) : LineTail s t

/-- A scan position is stable when any match found there rewrites to the
text itself. -/
def lineStable (s : List Char) : Prop :=
  ∀ g rest, tryMatchAt s = some (g, rest) → itemRepl g ++ rest = s

/-! ### `complete_markers.py` — `parse_with_recovery` -/

/-- The running state of the strategy-3 line-by-line recovery loop:
collected key-value pairs, the current key (`""` models Python falsy
`None`/empty — the key is only ever tested for truthiness) and the
accumulated value lines. -/
structure SalvageState where
  data : List (String × Val)
  ck : String
  cv : List String

/-- One iteration of the strategy-3 loop body. -/
def salvageLine (st : SalvageState) (raw : List Char) : SalvageState :=
  let line := pyStrip raw
  if line.isEmpty ∨ line.head? = some '#' then st
  else if line.contains ':' ∧ line.head? ≠ some '-' then
    let data' :=
      if st.ck ≠ "" ∧ st.cv ≠ [] then
        dSet st.data st.ck (Val.str (pyStripS (String.intercalate "\n" st.cv)))
      else st.data
    let parts := splitFirstColon line
    let rhs := String.mk (pyStrip parts.2)
    { data := data', ck := String.mk (pyStrip parts.1),
      cv := if rhs ≠ "" then [rhs] else [] }
  else if st.ck ≠ "" then
    { st with cv := st.cv ++ [String.mk line] }
  else st

/-- The final flush after the loop: the last key is stored only when both
the key and the accumulated value are non-empty. -/
def salvageFlush (st : SalvageState) : List (String × Val) :=
  if st.ck ≠ "" ∧ st.cv ≠ [] then
    dSet st.data st.ck (Val.str (pyStripS (String.intercalate "\n" st.cv)))
  else st.data

/-- Strategy 3 of `parse_with_recovery`: line-by-line salvage. -/
def lineSalvage (content : String) : List (String × Val) :=
  salvageFlush ((splitNl content.data).foldl salvageLine ⟨[], "", []⟩)

/-- The outcome of `parse_with_recovery`, instrumented with which
strategy produced the result (the code logs exactly this). -/
inductive ParseOutcome where
  | strat1 : Val → ParseOutcome
  | strat2 : Val → ParseOutcome
  | strat3 : Val → ParseOutcome
  | failed : ParseOutcome

/-- `YAMLRepairer.parse_with_recovery`, parameterised by the YAML parser
`safeLoad` (`yaml.safe_load`: `none` models a raised `YAMLError`, `some v`
a successful parse).  File reading is outside the model: `content` is the
file text.  Each strategy returns only a truthy result (`if data:`). -/
def parse_with_recovery (safeLoad : String → Option Val) (content : String) :
    ParseOutcome :=
  let s3 :=
    let data := lineSalvage content
    if data.isEmpty then ParseOutcome.failed else ParseOutcome.strat3 (Val.map data)
  let s2 :=
    match safeLoad (repair_yaml_content content) with
    | some d => if truthy d then ParseOutcome.strat2 d else s3
    | none => s3
  match safeLoad content with
  | some d => if truthy d then ParseOutcome.strat1 d else s2
  | none => s2

/-- The `(data, error)` pair `parse_with_recovery` returns. -/
def parseResult : ParseOutcome → Option Val × Option String
  | ParseOutcome.strat1 v => (some v, none)
  | ParseOutcome.strat2 v => (some v, none)
  | ParseOutcome.strat3 v => (some v, none)
  | ParseOutcome.failed => (none, some "All parsing strategies failed")

/-! ### `complete_markers.py` — `MarkerNormalizer` -/

/-- `self.frame_templates`, one entry per category. -/
def templateFor (category : String) : List (String × Val) :=
  if category = "ENTITY" then
    [("signal", Val.str "Named entity detection patterns"),
     ("concept", Val.str "Recognition of persons, organizations, locations"),
     ("pragmatics", Val.str "Entity extraction and classification"),
     ("narrative", Val.str "Identifying key actors and references in discourse")]
  else if category = "ATTACHMENT" then
    [("signal", Val.str "Attachment style linguistic patterns"),
     ("concept", Val.str "Psychological attachment theory markers"),
     ("pragmatics", Val.str "Relationship pattern identification"),
     ("narrative", Val.str "Understanding interpersonal dynamics through language")]
  else if category = "EMOTION" then
    [("signal", Val.str "Emotional expression patterns"),
     ("concept", Val.str "Affective state indicators"),
     ("pragmatics", Val.str "Emotion recognition and tracking"),
     ("narrative", Val.str "Monitoring emotional trajectories in conversation")]
  else if category = "META" then
    [("signal", Val.str "Meta-level communication patterns"),
     ("concept", Val.str "Higher-order linguistic structures"),
     ("pragmatics", Val.str "Meta-communication analysis"),
     ("narrative", Val.str "Detecting abstract patterns across multiple markers")]
  else
    -- 'CONVERSATION', which is also the `.get` fallback template
    [("signal", Val.str "Conversational dynamics patterns"),
     ("concept", Val.str "Interaction and dialogue structures"),
     ("pragmatics", Val.str "Conversation flow analysis"),
     ("narrative", Val.str "Understanding communication patterns and strategies")]

/-- The category decision chain of `detect_category`, on the marker name
and the description. -/
def categoryOf (nm desc : String) : String :=
  if pyStartsWith nm "A_LOC" ∨ pyStartsWith nm "A_PER" ∨ pyStartsWith nm "A_ORG" then
    "ENTITY"
  else if strContainsSub nm "ATTACHMENT" ∨ strContainsSub (pyLower desc) "attachment" then
    "ATTACHMENT"
  else if strContainsSub nm "EMO_" ∨ strContainsSub (pyLower desc) "emotion" then
    "EMOTION"
  else if pyStartsWith nm "MM_" then "META"
  else if pyStartsWith nm "C_" ∨ pyStartsWith nm "S_" then "CONVERSATION"
  else "CONVERSATION"

/-- `MarkerNormalizer.detect_category`: `none` models the
`AttributeError` raised by `marker_name.startswith` when the
`marker_name` field holds a non-string. -/
def detect_category (d : List (String × Val)) : Option String :=
  match dGetD d "marker_name" (Val.str "") with
  | Val.str nm =>
    some (categoryOf nm (pyStr (dGetD d "beschreibung" (Val.str ""))))
  | _ => none

/-- `MarkerNormalizer.generate_frame`: copy the category template and,
when the marker name is truthy, specialise `signal` to
`"<template signal> for <name>"`. -/
def generate_frame (d : List (String × Val)) : Option (List (String × Val)) :=
  match detect_category d with
  | none => none
  | some category =>
    let t := templateFor category
    match dGetD d "marker_name" (Val.str "") with
    | Val.str nm =>
      some (if nm ≠ "" then
        dSet t "signal" (Val.str (pyStr (dGetD t "signal" (Val.str "")) ++ " for " ++ nm))
      else t)
    | _ => none

/-- The cleaning of one raw example: only strings survive; strip, drop a
leading `"- "`, strip surrounding quotes, and drop empty or placeholder
entries. -/
def cleanOne (ex : Val) : Option String :=
  match ex with
  | Val.str s =>
    let s1 := pyStripS s
    let s2 := if pyStartsWith s1 "- " then String.mk (s1.data.drop 2) else s1
    let s3 := stripQuotes s2
    if s3 ≠ "" ∧ s3 ≠ "examples:" ∧ s3 ≠ "-" then some s3 else none
  | _ => none

def cleanExamples : Val → List String
  | Val.list xs => xs.filterMap cleanOne
  | _ => []

def synthExample (n : Nat) : String :=
  "Example usage pattern " ++ toString n ++ " for this marker"

/-- The `while len(clean_examples) < MIN_EXAMPLES` padding loop.  Each
iteration appends one element, so `MIN_EXAMPLES` rounds of fuel always
suffice. -/
def padGo : Nat → List String → List String
  | 0, l => l
  | n + 1, l =>
    if l.length < MIN_EXAMPLES then padGo n (l ++ [synthExample (l.length + 1)])
    else l

/-- `MarkerNormalizer.ensure_minimum_examples` (the call site passes an
arbitrary value; non-lists clean to the empty list). -/
def ensure_minimum_examples (v : Val) : List String :=
  padGo MIN_EXAMPLES (cleanExamples v)

/-- The marker identifier of `normalize_marker`:
`marker_data.get('marker_name', file_name.replace('.yaml', ''))`. -/
def markerIdOf (d : List (String × Val)) (file_name : String) : Val :=
  dGetD d "marker_name" (Val.str (pyReplace file_name ".yaml" ""))

/-- The fixed five-field dict literal `normalized` that
`normalize_marker` always builds (given the generated frame, the source
metadata dict and the deduplicated tags). -/
def normBase (d : List (String × Val)) (file_name now : String)
    (frame md : List (String × Val)) (tags : List Val) : List (String × Val) :=
  [("_id", markerIdOf d file_name),
   ("frame", Val.map frame),
   ("examples", Val.list
     ((ensure_minimum_examples (dGetD d "beispiele" (Val.list []))).map Val.str)),
   ("pattern", Val.str ("Pattern for " ++ pyStr (markerIdOf d file_name))),
   ("metadata", Val.map
     [("created", dGetD md "created_at" (Val.str now)),
      ("author", dGetD md "created_by" (Val.str "complete_markers.py")),
      ("version", dGetD md "version" (Val.str "1.0")),
      ("tags", Val.list tags)])]

/-- `if 'kategorie' in marker_data: normalized['category'] = ...` — the
assignment appends a fresh key at the end of the dict. -/
def optCategory (d : List (String × Val)) : List (String × Val) :=
  match dGet d "kategorie" with
  | some v => [("category", v)]
  | none => []

/-- `if 'semantische_grabber_id' in marker_data:
normalized['semantic_id'] = ...`. -/
def optSemantic (d : List (String × Val)) : List (String × Val) :=
  match dGet d "semantische_grabber_id" with
  | some v => [("semantic_id", v)]
  | none => []

/-- `if 'beschreibung' in marker_data:
normalized['original_description'] = str(...)`. -/
def optDescription (d : List (String × Val)) : List (String × Val) :=
  match dGet d "beschreibung" with
  | some v => [("original_description", Val.str (pyStr v))]
  | none => []

/-- `MarkerNormalizer.normalize_marker`.  `now` models
`datetime.now().isoformat()`; `none` models the exceptions the caller
catches (non-string `marker_name`, non-dict `metadata`, unusable tags),
which route the document to quarantine. -/
def normalize_marker (d : List (String × Val)) (file_name : String)
    (now : String) : Option (List (String × Val)) :=
  match generate_frame d with
  | none => none
  | some frame =>
    match dGetD d "metadata" (Val.map []) with
    | Val.map md =>
      match pySetList (dGetD md "tags" (Val.list [Val.str "normalized", Val.str "ld3.11"])) with
      | none => none
      | some tags =>
        some (normBase d file_name now frame md tags ++
              optCategory d ++ optSemantic d ++ optDescription d)
    | _ => none

/-! ### `qualify_marker_set.py` — `LeanDeep31Validator` -/

def requiredFields : List String := ["_id", "frame", "examples"]

def frameFields : List String := ["signal", "concept", "pragmatics", "narrative"]

def optionalFields : List String :=
  ["metadata", "category", "semantic_id", "original_description",
   "pattern", "composed_of", "detect_class"]

def xorFields : List String := ["pattern", "composed_of", "detect_class"]

def recommendedMeta : List String := ["created", "author", "version", "tags"]

/-- Python `type(v).__name__` for the values `Val` covers. -/
def pyTypeName : Val → String
  | Val.null => "NoneType"
  | Val.bool _ => "bool"
  | Val.int _ => "int"
  | Val.str _ => "str"
  | Val.list _ => "list"
  | Val.map _ => "dict"

/-- Rendering of a Python set of strings inside an f-string.  Python set
display order is unspecified; the model uses the given order (no claim
depends on the rendering). -/
def pySetFmt (xs : List String) : String :=
  "\x7b" ++ String.intercalate ", " (xs.map fun s => "\x27" ++ s ++ "\x27") ++ "\x7d"

/-- Rendering of a Python list of strings inside an f-string. -/
def pyListFmt (xs : List String) : String :=
  "[" ++ String.intercalate ", " (xs.map fun s => "\x27" ++ s ++ "\x27") ++ "]"

/-- `validate_xor_constraint`: exactly one of `pattern`, `composed_of`,
`detect_class` must be present. -/
def validate_xor_constraint (m : List (String × Val)) : Bool × List String :=
  let present := xorFields.filter (fun f => dMem f m)
  if present.length ≠ 1 then
    (false, ["XOR constraint violated: exactly one of " ++ pyListFmt xorFields ++
             " must be present, found " ++ pyListFmt present])
  else (true, [])

/-- The per-field loop of `validate_frame_structure`: each of the four
frame fields must hold a string; a whitespace-only string is a warning.
(Python iterates `self.frame_fields`, a set literal of these four names;
the model uses the listed order — the verdict does not depend on it.) -/
def checkFrameFields (kvs : List (String × Val)) (warns : List String) :
    List String → Bool × List String × List String
  | [] => (true, [], warns)
  | f :: fs =>
    match dGetD kvs f Val.null with
    | Val.str s =>
      checkFrameFields kvs
        (warns ++ if pyStripS s = "" then
          ["Frame field \x27" ++ f ++ "\x27 is empty"] else []) fs
    | v =>
      (false,
       ["Frame field \x27" ++ f ++ "\x27 must be a string, got " ++ pyTypeName v],
       warns)

/-- `validate_frame_structure`. -/
def validate_frame_structure (frame : Val) : Bool × List String × List String :=
  match frame with
  | Val.map kvs =>
    let missing := frameFields.filter (fun f => ¬ dMem f kvs)
    if missing ≠ [] then
      (false, ["Frame missing required fields: " ++ pySetFmt missing], [])
    else checkFrameFields kvs [] frameFields
  | v => (false, ["Frame must be a dictionary, got " ++ pyTypeName v], [])

/-- The element loop of `validate_examples`: every example must be a
string; repeats of an already-seen string warn. -/
def checkExamplesLoop (seen warns : List String) (i : Nat) :
    List Val → Bool × List String × List String
  | [] => (true, [], warns)
  | Val.str s :: rest =>
    checkExamplesLoop (s :: seen)
      (warns ++ if s ∈ seen then
        ["Duplicate example found: \x27" ++ s.take 50 ++ "...\x27"] else [])
      (i + 1) rest
  | v :: _ =>
    (false, ["Example " ++ toString i ++ " must be a string, got " ++ pyTypeName v],
     warns)

/-- `validate_examples`. -/
def validate_examples (v : Val) : Bool × List String × List String :=
  match v with
  | Val.list xs =>
    if xs.length < MIN_EXAMPLES then
      (false, ["Insufficient examples: found " ++ toString xs.length ++
               ", minimum " ++ toString MIN_EXAMPLES ++ " required"], [])
    else checkExamplesLoop [] [] 0 xs
  | v => (false, ["Examples must be a list, got " ++ pyTypeName v], [])

/-- `validate_metadata`: `None` passes, non-dicts fail, missing
recommended keys and duplicate tags warn; `tags` must be a list.
(`len(set(tags))` is modelled with `dedupFirst`; Python would raise on
unhashable tag elements, a case no claim exercises.) -/
def validate_metadata (v : Val) : Bool × List String × List String :=
  match v with
  | Val.null => (true, [], [])
  | Val.map kvs =>
    let missing := recommendedMeta.filter (fun f => ¬ dMem f kvs)
    let warns1 :=
      if missing ≠ [] then
        ["Metadata missing recommended fields: " ++ pySetFmt missing]
      else []
    match dGet kvs "tags" with
    | some (Val.list tags) =>
      (true, [],
       warns1 ++ if tags.length ≠ (dedupFirst tags).length then
         ["Duplicate tags found in metadata"] else [])
    | some _ => (false, ["Metadata \x27tags\x27 must be a list"], warns1)
    | none => (true, [], warns1)
  | v => (false, ["Metadata must be a dictionary, got " ++ pyTypeName v], [])

/-- `validate_pattern`. -/
def validate_pattern (v : Val) : Bool × List String × List String :=
  match v with
  | Val.str s =>
    (true, [], if pyStripS s = "" then ["Pattern is empty"] else [])
  | v => (false, ["Pattern must be a string, got " ++ pyTypeName v], [])

/-- The component loop of `validate_composed_of`. -/
def checkComposedLoop (i : Nat) : List Val → Bool × List String
  | [] => (true, [])
  | Val.map kvs :: rest =>
    if ¬ (dMem "type" kvs ∧ dMem "marker_ids" kvs) then
      (false, ["composed_of[" ++ toString i ++
               "] must have \x27type\x27 and \x27marker_ids\x27 fields"])
    else checkComposedLoop (i + 1) rest
  | _ :: _ =>
    (false, ["composed_of[" ++ toString i ++ "] must be a dictionary"])

/-- `validate_composed_of`. -/
def validate_composed_of (v : Val) : Bool × List String :=
  match v with
  | Val.list xs => checkComposedLoop 0 xs
  | v => (false, ["composed_of must be a list, got " ++ pyTypeName v])

/-- The result of `validate_marker`, instrumented with `ran`: the list of
validation stages that actually executed, in order (used for the claims
about the short-circuiting control flow; it affects no other field). -/
structure ValidationResult where
  valid : Bool
  errors : List String
  warnings : List String
  ran : List String

/-- `LeanDeep31Validator.validate_marker`: required fields short-circuit
everything; a bad `_id` is recorded but does not stop the pass; the
frame, examples and XOR stages each stop the pass on failure; the
optional-field and unknown-field stages only run after those succeed. -/
def validate_marker (m : List (String × Val)) : ValidationResult :=
  let missing := requiredFields.filter (fun f => ¬ dMem f m)
  if missing ≠ [] then
    { valid := false,
      errors := ["Missing required fields: " ++ pySetFmt missing],
      warnings := [], ran := ["required"] }
  else
    let idErrs :=
      match dGet m "_id" with
      | some (Val.str s) => if pyStripS s = "" then ["_id must be a non-empty string"] else []
      | _ => ["_id must be a non-empty string"]
    let fr := validate_frame_structure (dGetD m "frame" Val.null)
    if ¬ fr.1 then
      { valid := false, errors := idErrs ++ fr.2.1, warnings := fr.2.2,
        ran := ["required", "_id", "frame"] }
    else
      let ex := validate_examples (dGetD m "examples" Val.null)
      if ¬ ex.1 then
        { valid := false, errors := idErrs ++ fr.2.1 ++ ex.2.1,
          warnings := fr.2.2 ++ ex.2.2,
          ran := ["required", "_id", "frame", "examples"] }
      else
        let xo := validate_xor_constraint m
        if ¬ xo.1 then
          { valid := false, errors := idErrs ++ fr.2.1 ++ ex.2.1 ++ xo.2,
            warnings := fr.2.2 ++ ex.2.2,
            ran := ["required", "_id", "frame", "examples", "xor"] }
        else
          let pa := if dMem "pattern" m then
              validate_pattern (dGetD m "pattern" Val.null)
            else (true, [], [])
          let co := if dMem "composed_of" m then
              validate_composed_of (dGetD m "composed_of" Val.null)
            else (true, [])
          let md := if dMem "metadata" m then
              validate_metadata (dGetD m "metadata" Val.null)
            else (true, [], [])
          let allAllowed := requiredFields ++ optionalFields ++ xorFields
          let unknown := (dKeys m).filter (fun k => ¬ allAllowed.contains k)
          let unknownWarns :=
            if unknown ≠ [] then
              ["Unknown fields will be preserved: " ++ pySetFmt unknown]
            else []
          let errors := idErrs ++ fr.2.1 ++ ex.2.1 ++ xo.2 ++ pa.2.1 ++ co.2 ++ md.2.1
          { valid := errors.isEmpty,
            errors := errors,
            warnings := fr.2.2 ++ ex.2.2 ++ pa.2.2 ++ md.2.2 ++ unknownWarns,
            ran := ["required", "_id", "frame", "examples", "xor",
                    "optional", "unknown"] }

/-! ### `qualify_marker_set.py` — `MarkerQualifier.calculate_quality_score` -/

/-- The rating thresholds, applied by the code to the pre-clamp score. -/
def ratingOf (score : ℚ) : String :=
  if score ≥ 90 then "Excellent"
  else if score ≥ 80 then "Good"
  else if score ≥ 70 then "Acceptable"
  else if score ≥ 60 then "Needs Improvement"
  else "Poor"

/-- `all(field in metadata for field in ['created', 'author', 'version',
'tags'])`, with `none` modelling the `TypeError` of `in` on a
non-container (e.g. metadata `None`). -/
def allRecommendedIn (md : Val) : Option Bool := do
  let b1 ← pyIn "created" md
  if ¬ b1 then pure false else do
  let b2 ← pyIn "author" md
  if ¬ b2 then pure false else do
  let b3 ← pyIn "version" md
  if ¬ b3 then pure false else
  pyIn "tags" md

/-- Left-to-right sum of lengths, failing at the first length-less value
(the point where Python raises). -/
def sumOpt : List (Option Nat) → Option Nat
  | [] => some 0
  | none :: _ => none
  | some n :: rest => (sumOpt rest).map (n + ·)

/-- `sum(len(frame.get(f, '')) for f in frame)`: iterate the frame keys
and sum the value lengths.  A non-dict frame raises on `frame.get` unless
the iteration is empty (empty string/list), in which case the sum is 0. -/
def frameSumLens (frame : Val) : Option Nat :=
  match frame with
  | Val.map kvs => sumOpt ((dKeys kvs).map fun k => pyLen (dGetD kvs k (Val.str "")))
  | Val.str s => if s.data.isEmpty then some 0 else none
  | Val.list xs => if xs.isEmpty then some 0 else none
  | _ => none

/-- `MarkerQualifier.calculate_quality_score`.  Scores are modelled in
`ℚ`: every operation the code performs (integer subtraction/addition and
one division of an integer by 4) is exact in floating point, so the float
and rational computations agree.  `none` models an exception during
scoring (caught by `qualify_marker` as status `ERROR`). -/
def calculate_quality_score (m : List (String × Val)) (warnings : List String) :
    Option (ℚ × String) := do
  let score0 : ℚ := 100 - (warnings.length : ℚ) * 5
  let score1 ←
    if dMem "metadata" m then do
      let b ← allRecommendedIn (dGetD m "metadata" Val.null)
      pure (if b then score0 + 10 else score0)
    else pure score0
  let exLen ← pyLen (dGetD m "examples" (Val.list []))
  let score2 := if MIN_EXAMPLES < exLen then score1 + 5 else score1
  let score3 ←
    if dMem "frame" m then do
      let lenSum ← frameSumLens (dGetD m "frame" Val.null)
      pure (if (50 : ℚ) < (lenSum : ℚ) / 4 then score2 + 5 else score2)
    else pure score2
  pure (max 0 (min 100 score3), ratingOf score3)

/-! ### Claim-support definitions -/

/-- Whether a parse attempt failed for recovery purposes: a raised error
or a falsy result (`if data:` not taken). -/
def stratFails : Option Val → Bool
  | some d => ¬ truthy d
  | none => true

/-- A model of `yaml.safe_load` restricted to the strings it is consulted
on in the C4 counterexample: the empty document parses successfully to
`None` (as PyYAML does). -/
def yamlOnEmptyDoc : String → Option Val :=
  fun s => if s = "" then some Val.null else none

/-- A parser that always raises (models `yaml.safe_load` on the
counterexample document `"key:\n@:"`, where `@` cannot start a token). -/
def yamlNever : String → Option Val := fun _ => none

/-- A parser that succeeds on the single document `"a: 1"` (witness
oracle). -/
def yamlOnAB : String → Option Val :=
  fun s => if s = "a: 1" then some (Val.map [("a", Val.int 1)]) else none

/-- Spec wording for C5: a non-blank, non-comment line that contains a
colon and does not start with a list marker. -/
def colonLine (raw : List Char) : Bool :=
  let l := pyStrip raw
  ¬ l.isEmpty ∧ l.head? ≠ some '#' ∧ l.contains ':' ∧ l.head? ≠ some '-'

/-- A colon line whose key part and inline value part are both non-empty
after trimming (the amended hypothesis of C5). -/
def keyValLine (raw : List Char) : Bool :=
  colonLine raw ∧ pyStrip (splitFirstColon (pyStrip raw)).1 ≠ [] ∧
    pyStrip (splitFirstColon (pyStrip raw)).2 ≠ []

def hasColonLine (content : String) : Bool := (splitNl content.data).any colonLine

def hasKeyValLine (content : String) : Bool := (splitNl content.data).any keyValLine

/-- C5 counterexample document: both lines are key-only colon lines, and
PyYAML raises on it (`@` cannot start any token). -/
def c5Content : String := "key:\n@:"

/-- C5 witness document for the amended claim. -/
def c5WitContent : String := "a: 1\nmore"

/-- C6 counterexample input: a marker whose name differs from the file
stem. -/
def c6Input : List (String × Val) := [("marker_name", Val.str "FOO")]

def c6M1 : List (String × Val) :=
  (normalize_marker c6Input "bar.yaml" "T").getD []

def c6M2 : List (String × Val) :=
  (normalize_marker c6M1 "bar.yaml" "T2").getD []

/-- The `signal` value of a marker's frame (claim-support helper). -/
def frameSignalOf (m : List (String × Val)) : Val :=
  match dGet m "frame" with
  | some (Val.map kvs) => dGetD kvs "signal" (Val.str "")
  | _ => Val.null

/-- C9 counterexample input: the name field present but empty. -/
def c9Input : List (String × Val) := [("marker_name", Val.str "")]

def c9M : List (String × Val) :=
  (normalize_marker c9Input "foo.yaml" "T").getD []

/-- C7 counterexample marker: all required fields present, `_id` invalid,
and the frame also invalid (so the examples and XOR checks never run). -/
def c7Cex : List (String × Val) :=
  [("_id", Val.str ""), ("frame", Val.str "x"), ("examples", Val.int 3)]

/-- C8 counterexample frame: the four required keys plus an extra one. -/
def c8Frame : Val :=
  Val.map [("signal", Val.str "a"), ("concept", Val.str "b"),
           ("pragmatics", Val.str "c"), ("narrative", Val.str "d"),
           ("extra", Val.str "e")]

/-- C3 counterexample 1: structurally valid (metadata `None` passes
validation) but scoring raises on `'created' in None`. -/
def c3M0 : List (String × Val) :=
  [("_id", Val.str "x"),
   ("frame", Val.map [("signal", Val.str "a"), ("concept", Val.str "b"),
                      ("pragmatics", Val.str "c"), ("narrative", Val.str "d")]),
   ("examples", Val.list [Val.str "e1", Val.str "e2", Val.str "e3",
                          Val.str "e4", Val.str "e5"]),
   ("pattern", Val.str "p"), ("metadata", Val.null)]

/-- C3 counterexample 2: a structurally valid marker whose frame has an
extra long-valued key — the code averages over all frame keys, the claim
over the four named fields. -/
def c3M1 : List (String × Val) :=
  [("_id", Val.str "x"),
   ("frame", Val.map [("signal", Val.str ""), ("concept", Val.str ""),
                      ("pragmatics", Val.str ""), ("narrative", Val.str ""),
                      ("extra", Val.str (String.mk (List.replicate 300 'a')))]),
   ("examples", Val.list [Val.str "e1", Val.str "e2", Val.str "e3",
                          Val.str "e4", Val.str "e5"]),
   ("pattern", Val.str "p")]

/-- C3 witness marker for the amended claim (exactly four frame fields,
metadata with all recommended keys, six examples). -/
def c3MW : List (String × Val) :=
  [("_id", Val.str "x"),
   ("frame", Val.map [("signal", Val.str "a"), ("concept", Val.str "b"),
                      ("pragmatics", Val.str "c"), ("narrative", Val.str "d")]),
   ("examples", Val.list [Val.str "e1", Val.str "e2", Val.str "e3",
                          Val.str "e4", Val.str "e5", Val.str "e6"]),
   ("pattern", Val.str "p"),
   ("metadata", Val.map [("created", Val.str "T"), ("author", Val.str "A"),
                         ("version", Val.str "1.0"),
                         ("tags", Val.list [Val.str "t"])])]

/-- The string length of a `Val`, zero for non-strings (claim-words
helper). -/
def strLenOf : Val → Nat
  | Val.str s => s.length
  | _ => 0

/-- The number of examples on a marker (claim-words helper). -/
def exampleCount (m : List (String × Val)) : Nat :=
  match dGet m "examples" with
  | some (Val.list xs) => xs.length
  | _ => 0

/-- Claim C3, in the claim words: "metadata contains all of
created/author/version/tags" (Python containment, false when absent or
not a container). -/
def claimContainsAll (md : Val) : Bool :=
  recommendedMeta.all fun f => (pyIn f md).getD false

/-- Claim C3, in the claim words: the average character length of the
four frame field values. -/
def claimFrameAvg (m : List (String × Val)) : ℚ :=
  match dGet m "frame" with
  | some (Val.map kvs) =>
    ((frameFields.map fun f => strLenOf (dGetD kvs f (Val.str ""))).sum : ℚ) / 4
  | _ => 0

/-- The quality score exactly as claim C3 states it: 100 minus 5 per
warning, plus the three bonuses, clamped to `[0, 100]`. -/
def claimQualityScore (m : List (String × Val)) (warnings : List String) : ℚ :=
  let s : ℚ := 100 - 5 * (warnings.length : ℚ)
    + (if dMem "metadata" m ∧ claimContainsAll (dGetD m "metadata" Val.null) then 10 else 0)
    + (if MIN_EXAMPLES < exampleCount m then 5 else 0)
    + (if (50 : ℚ) < claimFrameAvg m then 5 else 0)
  max 0 (min 100 s)

/-- The frame-length sum the code actually computes for a frame mapping:
over all keys of the frame, not only the four required ones. -/
def amendedFrameSum (kvs : List (String × Val)) : Nat :=
  ((dKeys kvs).map fun k => ((pyLen (dGetD kvs k (Val.str ""))).getD 0)).sum

/-- The quality score as amended: identical to the claim formula except
that the length average runs over all frame keys. -/
def amendedQualityScore (m : List (String × Val)) (warnings : List String) : ℚ :=
  let frameAvg : ℚ :=
    match dGet m "frame" with
    | some (Val.map kvs) => (amendedFrameSum kvs : ℚ) / 4
    | _ => 0
  let s : ℚ := 100 - 5 * (warnings.length : ℚ)
    + (if dMem "metadata" m ∧ claimContainsAll (dGetD m "metadata" Val.null) then 10 else 0)
    + (if MIN_EXAMPLES < exampleCount m then 5 else 0)
    + (if (50 : ℚ) < frameAvg then 5 else 0)
  max 0 (min 100 s)

/-- C1 witness: the normalizer output for an empty parsed structure. -/
def c1OutM : List (String × Val) := (normalize_marker [] "x.yaml" "T").getD []

/-- C7 witness marker 1: the `examples` required field is missing. -/
def c7WitMissing : List (String × Val) :=
  [("_id", Val.str "m"), ("frame", Val.null)]

/-- C7 witness marker 2: all required fields present, `_id` not a string,
everything else well-formed. -/
def c7WitBadId : List (String × Val) :=
  [("_id", Val.int 5),
   ("frame", Val.map [("signal", Val.str "a"), ("concept", Val.str "b"),
                      ("pragmatics", Val.str "c"), ("narrative", Val.str "d")]),
   ("examples", Val.list [Val.str "e1", Val.str "e2", Val.str "e3",
                          Val.str "e4", Val.str "e5"]),
   ("pattern", Val.str "p")]



/-! ## Helper lemmas -/

theorem dGet_append (a b : List (String × Val)) (k : String) :
    dGet (a ++ b) k = (dGet a k).or (dGet b k) := by
  induction a with
  | nil => simp [dGet]
  | cons hd tl ih =>
    obtain ⟨k', v⟩ := hd
    by_cases hk : k' = k <;> simp [dGet, hk, ih]

theorem dMem_append (k : String) (a b : List (String × Val)) :
    dMem k (a ++ b) = (dMem k a || dMem k b) := by
  unfold dMem
  rw [dGet_append]
  cases dGet a k <;> simp

theorem normalize_shape (d : List (String × Val)) (f now : String)
    (m : List (String × Val)) (h : normalize_marker d f now = some m) :
    ∃ frame md tags,
      generate_frame d = some frame ∧
      dGetD d "metadata" (Val.map []) = Val.map md ∧
      pySetList (dGetD md "tags" (Val.list [Val.str "normalized", Val.str "ld3.11"]))
        = some tags ∧
      m = normBase d f now frame md tags ++ optCategory d ++ optSemantic d ++
          optDescription d := by
  unfold normalize_marker at h
  rcases hg : generate_frame d with _ | frame <;> rw [hg] at h
  · simp at h
  rcases hmd : dGetD d "metadata" (Val.map []) with _ | b | n | s | xs | md <;>
    rw [hmd] at h <;> try simp at h
  rcases ht : pySetList (dGetD md "tags" (Val.list [Val.str "normalized", Val.str "ld3.11"]))
    with _ | tags <;> rw [ht] at h
  · simp at h
  exact ⟨frame, md, tags, rfl, rfl, ht, (by simpa using h.symm)⟩

theorem dGet_optCategory (d : List (String × Val)) (k : String)
    (hk : ¬ ("category" : String) = k) : dGet (optCategory d) k = none := by
  unfold optCategory
  rcases dGet d "kategorie" with _ | v <;> simp [dGet, hk]

theorem dGet_optSemantic (d : List (String × Val)) (k : String)
    (hk : ¬ ("semantic_id" : String) = k) : dGet (optSemantic d) k = none := by
  unfold optSemantic
  rcases dGet d "semantische_grabber_id" with _ | v <;> simp [dGet, hk]

theorem dGet_optDescription (d : List (String × Val)) (k : String)
    (hk : ¬ ("original_description" : String) = k) :
    dGet (optDescription d) k = none := by
  unfold optDescription
  rcases dGet d "beschreibung" with _ | v <;> simp [dGet, hk]

theorem dGet_normBase_pattern (d : List (String × Val)) (f now : String)
    (frame md : List (String × Val)) (tags : List Val) :
    dGet (normBase d f now frame md tags) "pattern"
      = some (Val.str ("Pattern for " ++ pyStr (markerIdOf d f))) := by
  simp [normBase, dGet]

/-! ## C1 -/

/-- C1: for every parsed structure and source name, the marker returned
by `normalize_marker` contains the descriptor field `pattern` and
contains neither `composed_of` nor `detect_class`, so exactly one of the
three mutually exclusive descriptor fields is present (the Validator XOR
check accepts it). -/
theorem C1_normalizer_descriptor_xor (d : List (String × Val)) (f now : String)
    (m : List (String × Val)) (h : normalize_marker d f now = some m) :
    dMem "pattern" m = true ∧ dMem "composed_of" m = false ∧
      dMem "detect_class" m = false ∧ (validate_xor_constraint m).1 = true := by
  obtain ⟨frame, md, tags, -, -, -, rfl⟩ := normalize_shape d f now m h
  have hp : dMem "pattern"
      (normBase d f now frame md tags ++ optCategory d ++ optSemantic d ++
        optDescription d) = true := by
    simp [dMem, dGet_append, dGet_normBase_pattern]
  have hc : dMem "composed_of"
      (normBase d f now frame md tags ++ optCategory d ++ optSemantic d ++
        optDescription d) = false := by
    simp [dMem, dGet_append, normBase, dGet,
      dGet_optCategory d "composed_of" (by decide),
      dGet_optSemantic d "composed_of" (by decide),
      dGet_optDescription d "composed_of" (by decide)]
  have hd : dMem "detect_class"
      (normBase d f now frame md tags ++ optCategory d ++ optSemantic d ++
        optDescription d) = false := by
    simp [dMem, dGet_append, normBase, dGet,
      dGet_optCategory d "detect_class" (by decide),
      dGet_optSemantic d "detect_class" (by decide),
      dGet_optDescription d "detect_class" (by decide)]
  refine ⟨hp, hc, hd, ?_⟩
  simp only [List.append_assoc] at hp hc hd
  simp [validate_xor_constraint, xorFields, List.filter, hp, hc, hd]

/-- C1 witness: the theorem applied to the empty parsed structure. -/
theorem C1_descriptor_witness :
    dMem "pattern" c1OutM = true ∧ dMem "composed_of" c1OutM = false ∧
      dMem "detect_class" c1OutM = false ∧ (validate_xor_constraint c1OutM).1 = true :=
  C1_normalizer_descriptor_xor [] "x.yaml" "T" c1OutM (by rfl)

/-! ## C9 -/

/-- C9 counterexample: with the name field present but equal to the empty
string, the identifier is the empty string — not the file stem `foo` the
claim requires (`dict.get` only falls back when the key is absent). -/
theorem C9_empty_name_counterexample :
    dGet c9Input "marker_name" = some (Val.str "") ∧
    normalize_marker c9Input "foo.yaml" "T" = some c9M ∧
    dGet c9M "_id" = some (Val.str "") ∧
    dGet c9M "_id" ≠ some (Val.str "foo") := by
  refine ⟨rfl, rfl, rfl, ?_⟩
  intro h
  rw [show dGet c9M "_id" = some (Val.str "") from rfl] at h
  simp at h

/-- C9 (amended): the identifier is the `marker_name` value whenever that
key is present — even when it is empty or not a string — and only when
the key is absent is it the file name with every `.yaml` occurrence
removed. -/
theorem C9_identifier_amended (d : List (String × Val)) (f now : String)
    (m : List (String × Val)) (h : normalize_marker d f now = some m) :
    dGet m "_id" = some (dGetD d "marker_name" (Val.str (pyReplace f ".yaml" ""))) := by
  obtain ⟨frame, md, tags, -, -, -, rfl⟩ := normalize_shape d f now m h
  simp [dGet_append, normBase, dGet, markerIdOf]

/-- C9 witness: the amended theorem applied at the counterexample input. -/
theorem C9_identifier_witness :
    dGet c9M "_id"
      = some (dGetD c9Input "marker_name" (Val.str (pyReplace "foo.yaml" ".yaml" ""))) :=
  C9_identifier_amended c9Input "foo.yaml" "T" c9M (by rfl)

/-! ## C2 -/

theorem padGo_length (n : Nat) (l : List String)
    (h : MIN_EXAMPLES ≤ l.length + n) :
    MIN_EXAMPLES ≤ (padGo n l).length := by
  induction n generalizing l with
  | zero => simpa using h
  | succ n ih =>
    simp only [padGo]
    split
    · exact ih _ (by simp; omega)
    · omega

theorem checkExamplesLoop_strings (l : List String) :
    ∀ seen warns i, (checkExamplesLoop seen warns i (l.map Val.str)).1 = true := by
  induction l with
  | nil => intro seen warns i; rfl
  | cons x xs ih =>
    intro seen warns i
    simp only [List.map, checkExamplesLoop]
    exact ih _ _ _

/-- C2: for every input value, `ensure_minimum_examples` returns a list
of strings of length at least the configured minimum (5), and the
Validator's examples check (list type, minimum count, element types)
accepts the synthesized list. -/
theorem C2_minimum_examples (v : Val) :
    MIN_EXAMPLES ≤ (ensure_minimum_examples v).length ∧
    (validate_examples (Val.list ((ensure_minimum_examples v).map Val.str))).1 = true := by
  have hlen : MIN_EXAMPLES ≤ (ensure_minimum_examples v).length :=
    padGo_length MIN_EXAMPLES (cleanExamples v) (by omega)
  refine ⟨hlen, ?_⟩
  simp only [validate_examples, List.length_map]
  rw [if_neg (by omega)]
  exact checkExamplesLoop_strings _ [] [] 0

/-! ## C4 -/

/-- C4 counterexample: the empty document is syntactically valid — PyYAML
parses it to `None` — yet the direct strategy's truthiness guard
(`if data:`) rejects it, all three strategies are tried, and parsing
fails; so the claim that the direct strategy succeeds on every
syntactically valid document (and strategies 2-3 are never invoked) is
false. -/
theorem C4_falsy_parse_counterexample :
    yamlOnEmptyDoc "" = some Val.null ∧
    parse_with_recovery yamlOnEmptyDoc "" = ParseOutcome.failed ∧
    ¬ (∀ (sl : String → Option Val) (c : String) (v : Val),
        sl c = some v → parse_with_recovery sl c = ParseOutcome.strat1 v) := by
  refine ⟨rfl, by rfl, ?_⟩
  intro hall
  have h1 := hall yamlOnEmptyDoc "" Val.null rfl
  rw [show parse_with_recovery yamlOnEmptyDoc "" = ParseOutcome.failed from rfl] at h1
  exact absurd h1 (by simp)

/-- C4 (amended): for every document whose direct parse succeeds with a
truthy (non-empty) result, strategy 1 returns exactly that parse and
strategies 2-3 are never invoked. -/
theorem C4_direct_strategy_amended (sl : String → Option Val) (c : String)
    (v : Val) (h : sl c = some v) (ht : truthy v = true) :
    parse_with_recovery sl c = ParseOutcome.strat1 v := by
  simp [parse_with_recovery, h, ht]

/-- C4 witness: a one-document oracle on `"a: 1"`. -/
theorem C4_direct_strategy_witness :
    parse_with_recovery yamlOnAB "a: 1" = ParseOutcome.strat1 (Val.map [("a", Val.int 1)]) :=
  C4_direct_strategy_amended yamlOnAB "a: 1" (Val.map [("a", Val.int 1)]) (by rfl) (by rfl)

/-! ## C8 -/

/-- C8 counterexample: a mapping frame holding the four required keys
plus an extra key is accepted by `validate_frame_structure` with no
error, although its key set is not exactly the four required keys — the
claimed rejection of extra keys does not happen. -/
theorem C8_extra_key_counterexample :
    (validate_frame_structure c8Frame).1 = true ∧
    (validate_frame_structure c8Frame).2.1 = [] ∧
    dKeys [("signal", Val.str "a"), ("concept", Val.str "b"),
           ("pragmatics", Val.str "c"), ("narrative", Val.str "d"),
           ("extra", Val.str "e")] ≠ frameFields := by
  refine ⟨rfl, rfl, ?_⟩
  intro h
  have h5 := congrArg List.length h
  simp [dKeys, frameFields] at h5

theorem dGetD_null_str (kvs : List (String × Val)) (f s : String) :
    dGetD kvs f Val.null = Val.str s ↔ dGet kvs f = some (Val.str s) := by
  unfold dGetD
  rcases dGet kvs f with _ | v <;> simp

theorem checkFrameFields_ok (kvs : List (String × Val)) :
    ∀ (fields : List String) (warns : List String),
      (checkFrameFields kvs warns fields).1 = true ↔
        ∀ f ∈ fields, ∃ s, dGetD kvs f Val.null = Val.str s := by
  intro fields
  induction fields with
  | nil => intro warns; simp [checkFrameFields]
  | cons f fs ih =>
    intro warns
    simp only [checkFrameFields]
    rcases h : dGetD kvs f Val.null with _ | b | n | s | xs | m <;> simp [h, ih]

/-- C8 (amended): for every mapping frame, `validate_frame_structure`
accepts iff each of the four required keys is bound to a string value;
a missing key or a non-string value is a hard error, while extra keys
beyond the four are accepted without error or warning. -/
theorem C8_frame_check_amended (kvs : List (String × Val)) :
    (validate_frame_structure (Val.map kvs)).1 = true ↔
      ∀ f ∈ frameFields, ∃ s, dGet kvs f = some (Val.str s) := by
  simp only [validate_frame_structure]
  split
  · rename_i hm
    have hne : frameFields.filter (fun f => ¬ dMem f kvs) ≠ [] := hm
    refine iff_of_false (by simp) ?_
    intro hall
    obtain ⟨f, hf⟩ := List.exists_mem_of_ne_nil _ hne
    have := List.of_mem_filter hf
    have hmem := List.mem_of_mem_filter hf
    obtain ⟨s, hs⟩ := hall f hmem
    simp [dMem, hs] at this
  · rename_i hm
    rw [checkFrameFields_ok]
    constructor
    · intro hall f hf
      obtain ⟨s, hs⟩ := hall f hf
      exact ⟨s, (dGetD_null_str kvs f s).mp hs⟩
    · intro hall f hf
      obtain ⟨s, hs⟩ := hall f hf
      exact ⟨s, (dGetD_null_str kvs f s).mpr hs⟩

/-! ## C7 -/

/-- C7 counterexample: a marker with all required fields present and an
invalid `_id` whose frame is also invalid — the id error is recorded and
the frame check runs, but the examples and XOR checks do NOT run (the
frame failure stops the pass), refuting the claim that they always still
run for such markers. -/
theorem C7_short_circuit_counterexample :
    requiredFields.filter (fun f => ¬ dMem f c7Cex) = [] ∧
    "_id must be a non-empty string" ∈ (validate_marker c7Cex).errors ∧
    (validate_marker c7Cex).valid = false ∧
    "frame" ∈ (validate_marker c7Cex).ran ∧
    "examples" ∉ (validate_marker c7Cex).ran ∧
    "xor" ∉ (validate_marker c7Cex).ran := by
  refine ⟨by decide, ?_, by rfl, ?_, ?_, ?_⟩ <;> decide

/-- C7 (amended): a marker missing a required field yields exactly the
missing-fields error and stops before every later check; a marker with
all required fields whose `_id` is not a non-empty string records the id
error, still proceeds to the frame check, and is overall invalid — but
the examples and XOR checks only run when the frame (resp. examples)
check passes. -/
theorem C7_validation_flow_amended (m : List (String × Val)) :
    (requiredFields.filter (fun f => ¬ dMem f m) ≠ [] →
      (validate_marker m).valid = false ∧
      (validate_marker m).errors =
        ["Missing required fields: " ++
          pySetFmt (requiredFields.filter (fun f => ¬ dMem f m))] ∧
      (validate_marker m).ran = ["required"]) ∧
    (requiredFields.filter (fun f => ¬ dMem f m) = [] →
      (∀ s, dGet m "_id" = some (Val.str s) → pyStripS s = "") →
      "_id must be a non-empty string" ∈ (validate_marker m).errors ∧
      "frame" ∈ (validate_marker m).ran ∧
      (validate_marker m).valid = false) := by
  constructor
  · intro hm
    simp only [validate_marker]
    rw [if_pos hm]
    exact ⟨rfl, rfl, rfl⟩
  · intro hm hid
    have hiderr : (match dGet m "_id" with
        | some (Val.str s) =>
          if pyStripS s = "" then ["_id must be a non-empty string"] else []
        | _ => ["_id must be a non-empty string"])
          = ["_id must be a non-empty string"] := by
      rcases h : dGet m "_id" with _ | v
      · rfl
      rcases v with _ | b | n | s | xs | mm <;> try rfl
      simp only [hid s h, if_pos]
    simp only [validate_marker]
    rw [if_neg (fun hcon => hcon hm), hiderr]
    split
    · exact ⟨by simp, by simp, rfl⟩
    split
    · exact ⟨by simp, by simp, rfl⟩
    split
    · exact ⟨by simp, by simp, rfl⟩
    exact ⟨by simp, by simp, by simp⟩

/-- C7 witness: the amended theorem applied to a marker missing
`examples` and to a marker whose `_id` holds an integer. -/
theorem C7_validation_flow_witness :
    ((validate_marker c7WitMissing).valid = false ∧
     (validate_marker c7WitMissing).errors =
       ["Missing required fields: " ++
         pySetFmt (requiredFields.filter (fun f => ¬ dMem f c7WitMissing))] ∧
     (validate_marker c7WitMissing).ran = ["required"]) ∧
    ("_id must be a non-empty string" ∈ (validate_marker c7WitBadId).errors ∧
     "frame" ∈ (validate_marker c7WitBadId).ran ∧
     (validate_marker c7WitBadId).valid = false) := by
  constructor
  · exact (C7_validation_flow_amended c7WitMissing).1 (by decide)
  · refine (C7_validation_flow_amended c7WitBadId).2 (by decide) ?_
    intro s h
    rw [show dGet c7WitBadId "_id" = some (Val.int 5) from rfl] at h
    simp at h

/-! ## C5 -/

/-- C5 counterexample: on the document `"key:\n@:"` — a PyYAML scanner
error which the repair pass leaves unchanged — both structural strategies
fail and the first line is a colon line, yet line salvage collects
nothing: a key-only colon line is dropped when the next key starts and at
the final flush, so all parsing strategies fail. -/
theorem C5_key_only_counterexample :
    repair_yaml_content c5Content = c5Content ∧
    stratFails (yamlNever c5Content) = true ∧
    stratFails (yamlNever (repair_yaml_content c5Content)) = true ∧
    hasColonLine c5Content = true ∧
    lineSalvage c5Content = [] ∧
    parse_with_recovery yamlNever c5Content = ParseOutcome.failed :=
  ⟨by rfl, by rfl, by rfl, by rfl, by rfl, by rfl⟩

theorem dSet_ne_nil (d : List (String × Val)) (k : String) (v : Val) :
    dSet d k v ≠ [] := by
  cases d with
  | nil => simp [dSet]
  | cons hd tl =>
    obtain ⟨k', v'⟩ := hd
    by_cases h : k' = k <;> simp [dSet, h]

theorem String_mk_ne_empty (l : List Char) (h : l ≠ []) : String.mk l ≠ "" := by
  intro hc
  have hd := congrArg String.data hc
  simp at hd
  exact h hd

theorem salvageLine_preserves (st : SalvageState) (raw : List Char)
    (h : st.data ≠ [] ∨ (st.ck ≠ "" ∧ st.cv ≠ [])) :
    (salvageLine st raw).data ≠ [] ∨
      ((salvageLine st raw).ck ≠ "" ∧ (salvageLine st raw).cv ≠ []) := by
  simp only [salvageLine]
  by_cases hA : (pyStrip raw).isEmpty = true ∨ (pyStrip raw).head? = some '#'
  · rw [if_pos hA]
    exact h
  rw [if_neg hA]
  by_cases hB : (pyStrip raw).contains ':' = true ∧ (pyStrip raw).head? ≠ some '-'
  · rw [if_pos hB]
    left
    by_cases hD : st.ck ≠ "" ∧ st.cv ≠ []
    · rw [if_pos hD]
      exact dSet_ne_nil _ _ _
    · rw [if_neg hD]
      rcases h with hd | hckv
      · exact hd
      · exact absurd hckv hD
  rw [if_neg hB]
  by_cases hC : st.ck ≠ ""
  · rw [if_pos hC]
    rcases h with hd | ⟨hck, hcv⟩
    · exact Or.inl hd
    · exact Or.inr ⟨hck, by simp⟩
  · rw [if_neg hC]
    exact h

theorem salvageLine_establishes (st : SalvageState) (raw : List Char)
    (h : keyValLine raw = true) :
    (salvageLine st raw).ck ≠ "" ∧ (salvageLine st raw).cv ≠ [] := by
  simp only [keyValLine, colonLine, Bool.and_eq_true, decide_eq_true_eq, ne_eq] at h
  obtain ⟨⟨hne, hnc, hcol, hnd⟩, hkey, hval⟩ := h
  simp only [salvageLine]
  rw [if_neg (fun hA => hA.elim hne hnc), if_pos ⟨hcol, hnd⟩]
  refine ⟨String_mk_ne_empty _ hkey, ?_⟩
  rw [if_pos (String_mk_ne_empty _ hval)]
  simp

theorem salvage_fold_preserves (lines : List (List Char)) (st : SalvageState)
    (h : st.data ≠ [] ∨ (st.ck ≠ "" ∧ st.cv ≠ [])) :
    (lines.foldl salvageLine st).data ≠ [] ∨
      ((lines.foldl salvageLine st).ck ≠ "" ∧ (lines.foldl salvageLine st).cv ≠ []) := by
  induction lines generalizing st with
  | nil => exact h
  | cons l ls ih => exact ih _ (salvageLine_preserves st l h)

theorem salvage_fold_good (lines : List (List Char)) :
    ∀ st : SalvageState, (∃ raw ∈ lines, keyValLine raw = true) →
      (lines.foldl salvageLine st).data ≠ [] ∨
        ((lines.foldl salvageLine st).ck ≠ "" ∧ (lines.foldl salvageLine st).cv ≠ []) := by
  induction lines with
  | nil => rintro st ⟨raw, hmem, -⟩; exact absurd hmem (by simp)
  | cons l ls ih =>
    rintro st ⟨raw, hmem, hkv⟩
    rcases List.mem_cons.mp hmem with rfl | hmem'
    · exact salvage_fold_preserves ls _ (Or.inr (salvageLine_establishes st raw hkv))
    · exact ih _ ⟨raw, hmem', hkv⟩

theorem salvageFlush_ne_nil (st : SalvageState)
    (h : st.data ≠ [] ∨ (st.ck ≠ "" ∧ st.cv ≠ [])) : salvageFlush st ≠ [] := by
  unfold salvageFlush
  rcases h with hd | ⟨hck, hcv⟩
  · split <;> simp [dSet_ne_nil, hd]
  · rw [if_pos ⟨hck, hcv⟩]
    exact dSet_ne_nil _ _ _

/-- C5 (amended): for every document on which strategies 1 and 2 fail,
if at least one non-blank, non-comment colon line has a non-empty key
part and a non-empty inline value part, the line-salvage fallback returns
a non-empty mapping and `parse_with_recovery` returns it as the
strategy-3 result.  (A key-only line such as `key:` contributes no entry:
both the intermediate store and the final flush require a non-empty
accumulated value.) -/
theorem C5_line_salvage_amended (safeLoad : String → Option Val) (content : String)
    (h1 : stratFails (safeLoad content) = true)
    (h2 : stratFails (safeLoad (repair_yaml_content content)) = true)
    (h3 : hasKeyValLine content = true) :
    lineSalvage content ≠ [] ∧
    parse_with_recovery safeLoad content =
      ParseOutcome.strat3 (Val.map (lineSalvage content)) := by
  have hgood : ∃ raw ∈ splitNl content.data, keyValLine raw = true := by
    simpa [hasKeyValLine, List.any_eq_true] using h3
  have hne : lineSalvage content ≠ [] :=
    salvageFlush_ne_nil _ (salvage_fold_good _ _ hgood)
  refine ⟨hne, ?_⟩
  unfold parse_with_recovery
  rcases hs1 : safeLoad content with _ | d1
  · rcases hs2 : safeLoad (repair_yaml_content content) with _ | d2
    · simp [List.isEmpty_eq_true, hne]
    · have : truthy d2 = false := by
        have := h2; rw [hs2] at this; simpa [stratFails] using this
      simp [this, List.isEmpty_eq_true, hne]
  · have ht1 : truthy d1 = false := by
      have := h1; rw [hs1] at this; simpa [stratFails] using this
    rcases hs2 : safeLoad (repair_yaml_content content) with _ | d2
    · simp [ht1, List.isEmpty_eq_true, hne]
    · have ht2 : truthy d2 = false := by
        have := h2; rw [hs2] at this; simpa [stratFails] using this
      simp [ht1, ht2, List.isEmpty_eq_true, hne]

/-- C5 witness: the amended theorem applied to `"a: 1\nmore"` with a
never-succeeding parser. -/
theorem C5_line_salvage_witness :
    lineSalvage c5WitContent ≠ [] ∧
    parse_with_recovery yamlNever c5WitContent =
      ParseOutcome.strat3 (Val.map (lineSalvage c5WitContent)) :=
  C5_line_salvage_amended yamlNever c5WitContent (by rfl) (by rfl) (by rfl)

/-! ## C6 -/

theorem dGet_normBase_id (d : List (String × Val)) (f now : String)
    (frame md : List (String × Val)) (tags : List Val) :
    dGet (normBase d f now frame md tags) "_id" = some (markerIdOf d f) := by
  simp [normBase, dGet]

theorem dGet_normBase_frame (d : List (String × Val)) (f now : String)
    (frame md : List (String × Val)) (tags : List Val) :
    dGet (normBase d f now frame md tags) "frame" = some (Val.map frame) := by
  simp [normBase, dGet]

theorem dGet_normBase_examples (d : List (String × Val)) (f now : String)
    (frame md : List (String × Val)) (tags : List Val) :
    dGet (normBase d f now frame md tags) "examples" = some (Val.list
      ((ensure_minimum_examples (dGetD d "beispiele" (Val.list []))).map Val.str)) := by
  simp [normBase, dGet]

/-- A key that is neither one of the five base keys nor one of the three
optional keys is absent from every normalizer output. -/
theorem normOut_absent (d : List (String × Val)) (f now : String)
    (frame md : List (String × Val)) (tags : List Val) (k : String)
    (hb : dGet (normBase d f now frame md tags) k = none)
    (h6 : ¬ ("category" : String) = k) (h7 : ¬ ("semantic_id" : String) = k)
    (h8 : ¬ ("original_description" : String) = k) :
    dGet (normBase d f now frame md tags ++ optCategory d ++ optSemantic d ++
      optDescription d) k = none := by
  simp [dGet_append, hb, dGet_optCategory d k h6, dGet_optSemantic d k h7,
    dGet_optDescription d k h8]

/-- Normalizer outputs never carry the source-schema keys; the two read
back by a second pass. -/
theorem normOut_no_source_keys (d : List (String × Val)) (f now : String)
    (m : List (String × Val)) (h : normalize_marker d f now = some m) :
    dGet m "marker_name" = none ∧ dGet m "beschreibung" = none := by
  obtain ⟨frame, md, tags, -, -, -, rfl⟩ := normalize_shape d f now m h
  constructor
  · exact normOut_absent d f now frame md tags "marker_name"
      (by simp [normBase, dGet]) (by decide) (by decide) (by decide)
  · exact normOut_absent d f now frame md tags "beschreibung"
      (by simp [normBase, dGet]) (by decide) (by decide) (by decide)

/-- On a dict with no `marker_name` and no `beschreibung` (every
normalizer output), the second `generate_frame` yields the unspecialised
default CONVERSATION template. -/
theorem generate_frame_default (m : List (String × Val))
    (hmn : dGet m "marker_name" = none) (hbes : dGet m "beschreibung" = none) :
    generate_frame m = some (templateFor "CONVERSATION") := by
  have hmn' : dGetD m "marker_name" (Val.str "") = Val.str "" := by
    unfold dGetD
    rw [hmn]
  have hbes' : dGetD m "beschreibung" (Val.str "") = Val.str "" := by
    unfold dGetD
    rw [hbes]
  have hdc : detect_category m = some "CONVERSATION" := by
    unfold detect_category
    rw [hmn']
    show some (categoryOf "" (pyStr (dGetD m "beschreibung" (Val.str ""))))
      = some "CONVERSATION"
    rw [hbes']
    decide
  unfold generate_frame
  rw [hdc, hmn']
  simp

/-- C6 counterexample: feeding the output for `{marker_name: FOO}` (file
`bar.yaml`) back through the normalizer changes its id from `FOO` to
`bar` and replaces the specialised frame signal string by the bare
template, refuting idempotence of id and frame fields. -/
theorem C6_renormalize_counterexample :
    normalize_marker c6Input "bar.yaml" "T" = some c6M1 ∧
    normalize_marker c6M1 "bar.yaml" "T2" = some c6M2 ∧
    dGet c6M1 "_id" = some (Val.str "FOO") ∧
    dGet c6M2 "_id" = some (Val.str "bar") ∧
    dGet c6M2 "_id" ≠ dGet c6M1 "_id" ∧
    pyStr (frameSignalOf c6M1) = "Conversational dynamics patterns for FOO" ∧
    pyStr (frameSignalOf c6M2) = "Conversational dynamics patterns" ∧
    pyStr (frameSignalOf c6M2) ≠ pyStr (frameSignalOf c6M1) := by
  refine ⟨rfl, rfl, rfl, rfl, ?_, by decide, by decide, by decide⟩
  rw [show dGet c6M2 "_id" = some (Val.str "bar") from rfl,
      show dGet c6M1 "_id" = some (Val.str "FOO") from rfl]
  simp

/-- C6 (amended): re-normalizing a normalizer output never reduces the
example count below the configured minimum (both passes yield at least
`MIN_EXAMPLES` examples), but the pass is not idempotent: the second pass
resets the id to the file name with `.yaml` removed (the canonical output
stores the identifier under `_id`, not `marker_name`) and regenerates the
frame as the unspecialised default CONVERSATION template (dropping any
specialised signal string). -/
theorem C6_renormalize_amended (d : List (String × Val)) (f now now2 : String)
    (m m2 : List (String × Val)) (h : normalize_marker d f now = some m)
    (h2 : normalize_marker m f now2 = some m2) :
    dGet m2 "_id" = some (Val.str (pyReplace f ".yaml" "")) ∧
    dGet m2 "frame" = some (Val.map (templateFor "CONVERSATION")) ∧
    MIN_EXAMPLES ≤ exampleCount m2 ∧
    MIN_EXAMPLES ≤ exampleCount m := by
  obtain ⟨hmn, hbes⟩ := normOut_no_source_keys d f now m h
  have hexm : MIN_EXAMPLES ≤ exampleCount m := by
    obtain ⟨frame, md, tags, -, -, -, rfl⟩ := normalize_shape d f now m h
    have hex : dGet (normBase d f now frame md tags ++ optCategory d ++
        optSemantic d ++ optDescription d) "examples" = some (Val.list
        ((ensure_minimum_examples (dGetD d "beispiele" (Val.list []))).map Val.str)) := by
      simp only [dGet_append, dGet_normBase_examples, Option.or]
    unfold exampleCount
    rw [hex]
    simp only [List.length_map]
    exact padGo_length MIN_EXAMPLES _ (by omega)
  obtain ⟨frame2, md2, tags2, hg2, -, -, rfl⟩ := normalize_shape m f now2 m2 h2
  have hframe2 : frame2 = templateFor "CONVERSATION" := by
    have h3 := generate_frame_default m hmn hbes
    rw [hg2] at h3
    exact Option.some.inj h3
  refine ⟨?_, ?_, ?_, hexm⟩
  · simp only [dGet_append, dGet_normBase_id, Option.or]
    unfold markerIdOf dGetD
    rw [hmn]
  · simp only [dGet_append, dGet_normBase_frame, Option.or, hframe2]
  · have hex2 : dGet (normBase m f now2 frame2 md2 tags2 ++ optCategory m ++
        optSemantic m ++ optDescription m) "examples" = some (Val.list
        ((ensure_minimum_examples (dGetD m "beispiele" (Val.list []))).map Val.str)) := by
      simp only [dGet_append, dGet_normBase_examples, Option.or]
    unfold exampleCount
    rw [hex2]
    simp only [List.length_map]
    exact padGo_length MIN_EXAMPLES _ (by omega)

/-- C6 witness: the amended theorem at the counterexample input. -/
theorem C6_renormalize_witness :
    dGet c6M2 "_id" = some (Val.str (pyReplace "bar.yaml" ".yaml" "")) ∧
    dGet c6M2 "frame" = some (Val.map (templateFor "CONVERSATION")) ∧
    MIN_EXAMPLES ≤ exampleCount c6M2 ∧
    MIN_EXAMPLES ≤ exampleCount c6M1 :=
  C6_renormalize_amended c6Input "bar.yaml" "T" "T2" c6M1 c6M2 (by rfl) (by rfl)

/-! ## C3 -/

theorem ratingOf_clamp (s : ℚ) : ratingOf (max 0 (min 100 s)) = ratingOf s := by
  unfold ratingOf
  rcases le_or_lt 90 s with h90 | h90
  · rw [if_pos h90, if_pos (le_max_of_le_right (le_min (by norm_num) h90))]
  rcases le_or_lt 0 s with h0 | h0
  · rw [min_eq_right (by linarith), max_eq_right h0]
  · have hcl : max 0 (min 100 s) = 0 := by
      rw [min_eq_right (by linarith), max_eq_left (by linarith)]
    rw [hcl]
    rw [if_neg (by norm_num), if_neg (by norm_num), if_neg (by norm_num),
        if_neg (by norm_num), if_neg (by linarith), if_neg (by linarith),
        if_neg (by linarith), if_neg (by linarith)]

/-- Inversion of a valid `validate_marker` run: every required field is
present and the frame and examples checks passed. -/
theorem validate_marker_valid_parts (m : List (String × Val))
    (hv : (validate_marker m).valid = true) :
    dMem "_id" m = true ∧ dMem "frame" m = true ∧ dMem "examples" m = true ∧
    (validate_frame_structure (dGetD m "frame" Val.null)).1 = true ∧
    (validate_examples (dGetD m "examples" Val.null)).1 = true := by
  unfold validate_marker at hv
  by_cases h1 : requiredFields.filter (fun f => ¬ dMem f m) ≠ []
  · rw [if_pos h1] at hv
    exact absurd hv (by simp)
  rw [if_neg h1] at hv
  have hall : ∀ f ∈ requiredFields, dMem f m = true := by
    intro f hf
    by_contra hc
    have : f ∈ requiredFields.filter (fun f => ¬ dMem f m) :=
      List.mem_filter.mpr ⟨hf, by simp [hc]⟩
    rw [not_not.mp h1] at this
    exact absurd this (by simp)
  refine ⟨hall "_id" (by simp [requiredFields]),
          hall "frame" (by simp [requiredFields]),
          hall "examples" (by simp [requiredFields]), ?_, ?_⟩
  · by_cases hf : (validate_frame_structure (dGetD m "frame" Val.null)).1 = true
    · exact hf
    · rw [if_pos (by simp [hf])] at hv
      exact absurd hv (by simp)
  · by_cases hf : (validate_frame_structure (dGetD m "frame" Val.null)).1 = true
    · rw [if_neg (by simp [hf])] at hv
      by_cases he : (validate_examples (dGetD m "examples" Val.null)).1 = true
      · exact he
      · rw [if_pos (by simp [he])] at hv
        exact absurd hv (by simp)
    · rw [if_pos (by simp [hf])] at hv
      exact absurd hv (by simp)

theorem frame_ok_map (v : Val) (h : (validate_frame_structure v).1 = true) :
    ∃ kvs, v = Val.map kvs := by
  cases v <;> simp_all [validate_frame_structure]

theorem examples_ok_list (v : Val) (h : (validate_examples v).1 = true) :
    ∃ exs, v = Val.list exs ∧ MIN_EXAMPLES ≤ exs.length := by
  rcases v with _ | b | n | s | xs | kvs
  · exact absurd h (by simp [validate_examples])
  · exact absurd h (by simp [validate_examples])
  · exact absurd h (by simp [validate_examples])
  · exact absurd h (by simp [validate_examples])
  · refine ⟨xs, rfl, ?_⟩
    by_contra hc
    rw [validate_examples, if_pos (by omega)] at h
    exact absurd h (by simp)
  · exact absurd h (by simp [validate_examples])

theorem allRecommendedIn_map (kvs : List (String × Val)) :
    allRecommendedIn (Val.map kvs) =
      some (dMem "created" kvs && dMem "author" kvs &&
            dMem "version" kvs && dMem "tags" kvs) := by
  unfold allRecommendedIn pyIn
  cases h1 : dMem "created" kvs <;> cases h2 : dMem "author" kvs <;>
    cases h3 : dMem "version" kvs <;> cases h4 : dMem "tags" kvs <;>
    simp [Option.bind, h1, h2, h3, h4]

theorem claimContainsAll_map (kvs : List (String × Val)) :
    claimContainsAll (Val.map kvs) =
      (dMem "created" kvs && dMem "author" kvs &&
       dMem "version" kvs && dMem "tags" kvs) := by
  simp [claimContainsAll, recommendedMeta, pyIn, List.all, Bool.and_assoc]

theorem dGet_isSome_of_mem_keys (kvs : List (String × Val)) (k : String)
    (h : k ∈ dKeys kvs) : (dGet kvs k).isSome := by
  induction kvs with
  | nil => simp [dKeys] at h
  | cons hd tl ih =>
    obtain ⟨k', v⟩ := hd
    by_cases hk : k' = k
    · simp [dGet, hk]
    · simp [dGet, hk]
      apply ih
      simp [dKeys] at h ⊢
      rcases h with h | h
      · exact absurd h.symm hk
      · exact h

theorem dGet_mem (kvs : List (String × Val)) (k : String) (v : Val)
    (h : dGet kvs k = some v) : (k, v) ∈ kvs := by
  induction kvs with
  | nil => simp [dGet] at h
  | cons hd tl ih =>
    obtain ⟨k', v'⟩ := hd
    by_cases hk : k' = k
    · rw [dGet, if_pos hk] at h
      subst hk
      simp at h
      simp [h]
    · rw [dGet, if_neg hk] at h
      exact List.mem_cons_of_mem _ (ih h)

theorem sumOpt_all_some (l : List (Option Nat)) (h : ∀ o ∈ l, o.isSome) :
    sumOpt l = some ((l.map (fun o => o.getD 0)).sum) := by
  induction l with
  | nil => rfl
  | cons o rest ih =>
    rcases o with _ | n
    · exact absurd (h none (by simp)) (by simp)
    · simp only [sumOpt, List.map, List.sum_cons]
      rw [ih (fun o ho => h o (by simp [ho]))]
      simp

theorem frameSumLens_map (kvs : List (String × Val))
    (hfl : ∀ p ∈ kvs, (pyLen p.2).isSome) :
    frameSumLens (Val.map kvs) = some (amendedFrameSum kvs) := by
  have hsum : ∀ o ∈ (dKeys kvs).map (fun k => pyLen (dGetD kvs k (Val.str ""))),
      o.isSome := by
    intro o ho
    simp only [List.mem_map] at ho
    obtain ⟨k, hk, rfl⟩ := ho
    have hs := dGet_isSome_of_mem_keys kvs k hk
    rcases hg : dGet kvs k with _ | v
    · rw [hg] at hs
      exact absurd hs (by simp)
    · have hd : dGetD kvs k (Val.str "") = v := by
        unfold dGetD
        rw [hg]
      rw [hd]
      exact hfl (k, v) (dGet_mem kvs k v hg)
  show sumOpt ((dKeys kvs).map fun k => pyLen (dGetD kvs k (Val.str "")))
    = some (amendedFrameSum kvs)
  rw [sumOpt_all_some _ hsum, List.map_map]
  rfl

set_option maxRecDepth 10000 in
/-- C3 counterexample, two independent divergences: (1) a structurally
valid marker whose metadata is `None` crashes during scoring (`'created'
in None` raises), so it has no score at all where the claim promises
100.0; (2) a valid marker whose frame carries an extra 300-character key
scores 85 — the code averages over all frame keys — while the claim
formula over the four named fields yields 80. -/
theorem C3_quality_score_counterexample :
    (validate_marker c3M0).valid = true ∧
    (validate_marker c3M0).warnings = [] ∧
    calculate_quality_score c3M0 (validate_marker c3M0).warnings = none ∧
    claimQualityScore c3M0 (validate_marker c3M0).warnings = 100 ∧
    (validate_marker c3M1).valid = true ∧
    (validate_marker c3M1).warnings.length = 4 ∧
    calculate_quality_score c3M1 (validate_marker c3M1).warnings
      = some (85, "Good") ∧
    claimQualityScore c3M1 (validate_marker c3M1).warnings = 80 := by
  refine ⟨rfl, rfl, rfl, ?_, rfl, rfl, ?_, ?_⟩
  · show claimQualityScore c3M0 [] = 100
    unfold claimQualityScore
    rw [show claimFrameAvg c3M0 = ((4 : Nat) : ℚ) / 4 from rfl]
    rw [if_neg (by decide), if_neg (by decide),
        if_neg (show ¬ (50 : ℚ) < ((4 : Nat) : ℚ) / 4 by push_cast; norm_num)]
    rw [show (100 : ℚ) - 5 * (([] : List String).length : ℚ) + 0 + 0 + 0 = 100 by
      simp]
    show (0 : ℚ) ⊔ 100 ⊓ 100 = 100
    rw [inf_idem, sup_eq_right.mpr (by norm_num)]
  · show calculate_quality_score c3M1 (validate_marker c3M1).warnings
      = some (85, "Good")
    have hw : (validate_marker c3M1).warnings.length = 4 := by rfl
    unfold calculate_quality_score
    rw [hw]
    rw [show dMem "metadata" c3M1 = false from rfl]
    rw [show pyLen (dGetD c3M1 "examples" (Val.list [])) = some 5 from rfl]
    rw [show dMem "frame" c3M1 = true from rfl]
    rw [show frameSumLens (dGetD c3M1 "frame" Val.null) = some 300 from rfl]
    show some (max (0 : ℚ) (min 100
        (if (50 : ℚ) < ((300 : Nat) : ℚ) / 4 then
          (if MIN_EXAMPLES < (5 : Nat) then (100 : ℚ) - ((4 : Nat) : ℚ) * 5 + 5
           else (100 : ℚ) - ((4 : Nat) : ℚ) * 5) + 5
         else if MIN_EXAMPLES < (5 : Nat) then (100 : ℚ) - ((4 : Nat) : ℚ) * 5 + 5
           else (100 : ℚ) - ((4 : Nat) : ℚ) * 5)),
      ratingOf
        (if (50 : ℚ) < ((300 : Nat) : ℚ) / 4 then
          (if MIN_EXAMPLES < (5 : Nat) then (100 : ℚ) - ((4 : Nat) : ℚ) * 5 + 5
           else (100 : ℚ) - ((4 : Nat) : ℚ) * 5) + 5
         else if MIN_EXAMPLES < (5 : Nat) then (100 : ℚ) - ((4 : Nat) : ℚ) * 5 + 5
           else (100 : ℚ) - ((4 : Nat) : ℚ) * 5))
      = some (85, "Good")
    rw [if_pos (show (50 : ℚ) < ((300 : Nat) : ℚ) / 4 by push_cast; norm_num),
        if_neg (show ¬ MIN_EXAMPLES < (5 : Nat) by decide)]
    rw [show (100 : ℚ) - ((4 : Nat) : ℚ) * 5 + 5 = 85 by push_cast; ring]
    rw [show ratingOf 85 = "Good" by
      unfold ratingOf
      rw [if_neg (by norm_num), if_pos (by norm_num)]]
    rw [min_eq_right (by norm_num), max_eq_right (by norm_num)]
  · show claimQualityScore c3M1 (validate_marker c3M1).warnings = 80
    have hw : (validate_marker c3M1).warnings.length = 4 := by rfl
    unfold claimQualityScore
    rw [hw]
    rw [show claimFrameAvg c3M1 = ((0 : Nat) : ℚ) / 4 from rfl]
    rw [if_neg (by decide), if_neg (by decide),
        if_neg (show ¬ (50 : ℚ) < ((0 : Nat) : ℚ) / 4 by push_cast; norm_num)]
    rw [show (100 : ℚ) - 5 * ((4 : Nat) : ℚ) + 0 + 0 + 0 = 80 by push_cast; ring]
    show (0 : ℚ) ⊔ 100 ⊓ 80 = 80
    rw [inf_eq_right.mpr (by norm_num), sup_eq_right.mpr (by norm_num)]

theorem score_assemble (s0 : ℚ) (P Q R : Prop) [Decidable P] [Decidable Q]
    [Decidable R] :
    (if R then (if Q then (if P then s0 + 10 else s0) + 5
                else if P then s0 + 10 else s0) + 5
     else if Q then (if P then s0 + 10 else s0) + 5
          else if P then s0 + 10 else s0)
    = s0 + (if P then 10 else 0) + (if Q then 5 else 0) + (if R then 5 else 0) := by
  by_cases hP : P <;> by_cases hQ : Q <;> by_cases hR : R <;>
    simp [hP, hQ, hR]

theorem score_assemble2 (s0 : ℚ) (Q R : Prop) [Decidable Q] [Decidable R] :
    (if R then (if Q then s0 + 5 else s0) + 5
     else if Q then s0 + 5 else s0)
    = s0 + 0 + (if Q then 5 else 0) + (if R then 5 else 0) := by
  by_cases hQ : Q <;> by_cases hR : R <;> simp [hQ, hR]

set_option maxRecDepth 10000 in
/-- C3 (amended): for every structurally valid marker whose metadata (if
present) is a mapping and whose frame values all have a length, the score
is 100 minus 5 per warning, plus 10 if the metadata contains all of
created/author/version/tags, plus 5 if the example count strictly exceeds
the minimum, plus 5 if the sum of the character lengths of ALL frame
values (not only the four named fields) divided by 4 exceeds 50, clamped
to [0, 100]; and the rating is determined from the clamped score by the
stated thresholds.  (For a valid marker with metadata `None`, scoring
raises instead of returning a score.) -/
theorem C3_quality_score_amended (m : List (String × Val))
    (hv : (validate_marker m).valid = true)
    (hmd : ∀ v, dGet m "metadata" = some v → ∃ kvs, v = Val.map kvs)
    (hfl : ∀ kvs, dGet m "frame" = some (Val.map kvs) →
      ∀ p ∈ kvs, (pyLen p.2).isSome) :
    calculate_quality_score m (validate_marker m).warnings =
      some (amendedQualityScore m (validate_marker m).warnings,
            ratingOf (amendedQualityScore m (validate_marker m).warnings)) := by
  generalize (validate_marker m).warnings = W
  obtain ⟨hid, hfr, hex, hfok, heok⟩ := validate_marker_valid_parts m hv
  obtain ⟨fkvs, hfeq⟩ := frame_ok_map _ hfok
  obtain ⟨exs, heeq, hlen⟩ := examples_ok_list _ heok
  have hfget : dGet m "frame" = some (Val.map fkvs) := by
    rcases hg : dGet m "frame" with _ | v
    · unfold dMem at hfr
      rw [hg] at hfr
      exact absurd hfr (by simp)
    · have hveq : dGetD m "frame" Val.null = v := by
        unfold dGetD
        rw [hg]
      rw [hveq] at hfeq
      rw [← hfeq]
  have heget : dGet m "examples" = some (Val.list exs) := by
    rcases hg : dGet m "examples" with _ | v
    · unfold dMem at hex
      rw [hg] at hex
      exact absurd hex (by simp)
    · have hveq : dGetD m "examples" Val.null = v := by
        unfold dGetD
        rw [hg]
      rw [hveq] at heeq
      rw [← heeq]
  have hdge : dGetD m "examples" (Val.list []) = Val.list exs := by
    unfold dGetD
    rw [heget]
  have hfs : frameSumLens (dGetD m "frame" Val.null) = some (amendedFrameSum fkvs) := by
    rw [hfeq]
    exact frameSumLens_map fkvs (hfl fkvs hfget)
  have hexlen : pyLen (dGetD m "examples" (Val.list [])) = some exs.length := by
    rw [hdge]
    rfl
  have hecount : exampleCount m = exs.length := by
    unfold exampleCount
    rw [heget]
  by_cases hm : dMem "metadata" m = true
  · unfold dMem at hm
    obtain ⟨mv, hmv⟩ := Option.isSome_iff_exists.mp hm
    obtain ⟨mkvs, rfl⟩ := hmd mv hmv
    have hm' : dMem "metadata" m = true := by
      unfold dMem
      rw [hmv]
      rfl
    have hdgm : dGetD m "metadata" Val.null = Val.map mkvs := by
      unfold dGetD
      rw [hmv]
    have hL : amendedQualityScore m W = max 0 (min 100
        ((100 - 5 * (W.length : ℚ)
          + (if dMem "metadata" m = true ∧
               claimContainsAll (dGetD m "metadata" Val.null) = true then (10 : ℚ) else 0))
          + (if MIN_EXAMPLES < exampleCount m then (5 : ℚ) else 0)
          + (if (50 : ℚ) < (amendedFrameSum fkvs : ℚ) / 4 then (5 : ℚ) else 0))) := by
      unfold amendedQualityScore
      rw [hfget]
    unfold calculate_quality_score
    rw [if_pos hm', hdgm, allRecommendedIn_map]
    simp only [hfr, eq_self_iff_true, if_true, ite_true, hexlen, hfs,
               Option.bind_eq_bind, Option.some_bind, Option.pure_def]
    rw [score_assemble, hL, ratingOf_clamp, hdgm, claimContainsAll_map, hecount,
        show (100 : ℚ) - (W.length : ℚ) * 5 = 100 - 5 * (W.length : ℚ) from by ring]
    by_cases hP : (dMem "created" mkvs && dMem "author" mkvs &&
        dMem "version" mkvs && dMem "tags" mkvs) = true
    · have hyc : dMem "metadata" m = true ∧
          (dMem "created" mkvs && dMem "author" mkvs &&
           dMem "version" mkvs && dMem "tags" mkvs) = true := ⟨hm', hP⟩
      rw [if_pos hP, if_pos hyc]
    · have hnc : ¬ (dMem "metadata" m = true ∧
          (dMem "created" mkvs && dMem "author" mkvs &&
           dMem "version" mkvs && dMem "tags" mkvs) = true) := fun hc => hP hc.2
      rw [if_neg hP, if_neg hnc]
  · have hL : amendedQualityScore m W = max 0 (min 100
        ((100 - 5 * (W.length : ℚ)
          + (if dMem "metadata" m = true ∧
               claimContainsAll (dGetD m "metadata" Val.null) = true then (10 : ℚ) else 0))
          + (if MIN_EXAMPLES < exampleCount m then (5 : ℚ) else 0)
          + (if (50 : ℚ) < (amendedFrameSum fkvs : ℚ) / 4 then (5 : ℚ) else 0))) := by
      unfold amendedQualityScore
      rw [hfget]
    have hnc : ¬ (dMem "metadata" m = true ∧
        claimContainsAll (dGetD m "metadata" Val.null) = true) := fun hc => hm hc.1
    unfold calculate_quality_score
    rw [if_neg hm]
    simp only [hfr, eq_self_iff_true, if_true, ite_true, hexlen, hfs,
               Option.bind_eq_bind, Option.some_bind, Option.pure_def]
    rw [score_assemble2, hL, ratingOf_clamp, hecount,
        show (100 : ℚ) - (W.length : ℚ) * 5 = 100 - 5 * (W.length : ℚ) from by ring,
        if_neg hnc]

set_option maxRecDepth 10000 in
/-- Witness for the amended C3 theorem: a concrete structurally valid
marker with a four-key string frame and a complete metadata mapping. -/
theorem C3_quality_score_amended_witness :
    calculate_quality_score c3MW (validate_marker c3MW).warnings =
      some (amendedQualityScore c3MW (validate_marker c3MW).warnings,
            ratingOf (amendedQualityScore c3MW (validate_marker c3MW).warnings)) := by
  refine C3_quality_score_amended c3MW (by rfl) ?_ ?_
  · intro v hveq
    rw [show dGet c3MW "metadata" =
        some (Val.map [("created", Val.str "T"), ("author", Val.str "A"),
                       ("version", Val.str "1.0"),
                       ("tags", Val.list [Val.str "t"])]) from rfl] at hveq
    exact ⟨_, (Option.some.inj hveq).symm⟩
  · intro kvs hk
    rw [show dGet c3MW "frame" =
        some (Val.map [("signal", Val.str "a"), ("concept", Val.str "b"),
                       ("pragmatics", Val.str "c"),
                       ("narrative", Val.str "d")]) from rfl] at hk
    injection Option.some.inj hk with h
    subst h
    decide

/-! ### C10 support: generic list lemmas -/

theorem allP_dropWhile_append {p : Char → Bool} {A : List Char} (B : List Char)
    (h : A.all p = true) : (A ++ B).dropWhile p = B.dropWhile p := by
  induction A with
  | nil => rfl
  | cons a A ih =>
    simp only [List.all_cons, Bool.and_eq_true] at h
    simp [List.dropWhile_cons, h.1, ih h.2]

theorem allP_takeWhile_append {p : Char → Bool} {A : List Char} (B : List Char)
    (h : A.all p = true) : (A ++ B).takeWhile p = A ++ B.takeWhile p := by
  induction A with
  | nil => rfl
  | cons a A ih =>
    simp only [List.all_cons, Bool.and_eq_true] at h
    simp [List.takeWhile_cons, h.1, ih h.2]

theorem dropWhile_head_false {p : Char → Bool} {l : List Char} {c : Char}
    {r : List Char} (h : l.dropWhile p = c :: r) : p c = false := by
  induction l with
  | nil => simp at h
  | cons a l ih =>
    rw [List.dropWhile_cons] at h
    by_cases ha : p a
    · rw [if_pos ha] at h
      exact ih h
    · rw [if_neg ha] at h
      cases h
      exact Bool.eq_false_iff.mpr ha

theorem dropWhile_all_nil {p : Char → Bool} {l : List Char}
    (h : l.all p = true) : l.dropWhile p = [] := by
  induction l with
  | nil => rfl
  | cons a l ih =>
    simp only [List.all_cons, Bool.and_eq_true] at h
    simp [List.dropWhile_cons, h.1, ih h.2]

theorem takeWhile_all_id {p : Char → Bool} {l : List Char}
    (h : l.all p = true) : l.takeWhile p = l := by
  induction l with
  | nil => rfl
  | cons a l ih =>
    simp only [List.all_cons, Bool.and_eq_true] at h
    simp [List.takeWhile_cons, h.1, ih h.2]

theorem span_decomp (p : Char → Bool) (l : List Char) :
    l = l.takeWhile p ++ l.dropWhile p := (List.takeWhile_append_dropWhile p l).symm

theorem all_takeWhile_true (p : Char → Bool) (l : List Char) :
    (l.takeWhile p).all p = true := by
  induction l with
  | nil => rfl
  | cons a l ih =>
    rw [List.takeWhile_cons]
    by_cases ha : p a
    · simp [ha, ih]
    · simp [ha]

/-- Decompose a character list at its first non-`p` character. -/
theorem first_nonp_decomp (p : Char → Bool) (L : List Char) :
    L.all p = true ∨
      ∃ W c M, L = W ++ c :: M ∧ W.all p = true ∧ p c = false := by
  cases hd : L.dropWhile p with
  | nil =>
    left
    have := span_decomp p L
    rw [hd, List.append_nil] at this
    rw [this]
    exact all_takeWhile_true p L
  | cons c M =>
    right
    refine ⟨L.takeWhile p, c, M, ?_, all_takeWhile_true p L, dropWhile_head_false hd⟩
    conv_lhs => rw [span_decomp p L]
    rw [hd]

/-! ### C10 support: splitNl / joinNl -/

theorem splitNl_nl (r : List Char) : splitNl ('\n' :: r) = [] :: splitNl r := rfl

theorem splitNl_cons_of_ne {c : Char} (r : List Char) (hc : c ≠ '\n') :
    splitNl (c :: r) =
      match splitNl r with
      | [] => [[c]]
      | l :: ls => (c :: l) :: ls := by
  rw [splitNl.eq_def]
  split
  · rename_i heq
    simp at heq
  · rename_i heq
    injection heq with h1 h2
    exact absurd h1 hc
  · rename_i h c' r' heq
    injection heq with h1 h2
    subst h1
    subst h2
    rfl

theorem splitNl_ne_nil (s : List Char) : splitNl s ≠ [] := by
  induction s with
  | nil => simp [splitNl]
  | cons c r ih =>
    by_cases hc : c = '\n'
    · subst hc
      simp [splitNl_nl]
    · rw [splitNl_cons_of_ne _ hc]
      cases h : splitNl r with
      | nil => simp
      | cons l ls => simp

theorem splitNl_app {L : List Char} (X : List Char)
    (h : L.all (· ≠ '\n') = true) :
    splitNl (L ++ '\n' :: X) = L :: splitNl X := by
  induction L with
  | nil => simp [splitNl_nl]
  | cons c L ih =>
    simp only [List.all_cons, Bool.and_eq_true, decide_eq_true_eq] at h
    rw [List.cons_append, splitNl_cons_of_ne _ h.1, ih (by
      simpa using h.2)]

theorem splitNl_free {L : List Char} (h : L.all (· ≠ '\n') = true) :
    splitNl L = [L] := by
  induction L with
  | nil => rfl
  | cons c L ih =>
    simp only [List.all_cons, Bool.and_eq_true, decide_eq_true_eq] at h
    rw [splitNl_cons_of_ne _ h.1, ih (by simpa using h.2)]

theorem splitNl_all_free (s : List Char) :
    ∀ L ∈ splitNl s, L.all (· ≠ '\n') = true := by
  induction s with
  | nil =>
    intro L hL
    simp [splitNl] at hL
    simp [hL]
  | cons c r ih =>
    by_cases hc : c = '\n'
    · subst hc
      rw [splitNl_nl]
      intro L hL
      rcases List.mem_cons.mp hL with h | h
      · simp [h]
      · exact ih L h
    · rw [splitNl_cons_of_ne _ hc]
      cases h : splitNl r with
      | nil => exact absurd h (splitNl_ne_nil r)
      | cons l ls =>
        intro L hL
        rcases List.mem_cons.mp hL with h1 | h1
        · subst h1
          have hl := ih l (h ▸ List.mem_cons_self l ls)
          simp only [List.all_cons, Bool.and_eq_true, decide_eq_true_eq]
          exact ⟨hc, hl⟩
        · exact ih L (h ▸ List.mem_cons_of_mem l h1)

theorem joinNl_cons (l : List Char) {ls : List (List Char)} (h : ls ≠ []) :
    joinNl (l :: ls) = l ++ '\n' :: joinNl ls := by
  cases ls with
  | nil => exact absurd rfl h
  | cons l' ls' => rfl

theorem joinNl_splitNl (s : List Char) : joinNl (splitNl s) = s := by
  induction s with
  | nil => rfl
  | cons c r ih =>
    by_cases hc : c = '\n'
    · subst hc
      rw [splitNl_nl, joinNl_cons _ (splitNl_ne_nil r), ih]
      rfl
    · rw [splitNl_cons_of_ne _ hc]
      cases h : splitNl r with
      | nil => exact absurd h (splitNl_ne_nil r)
      | cons l ls =>
        rw [h] at ih
        cases ls with
        | nil =>
          simp only [joinNl] at ih ⊢
          rw [ih]
        | cons l2 ls2 =>
          rw [joinNl_cons _ (by simp)] at ih
          rw [joinNl_cons _ (by simp), List.cons_append]
          exact congrArg (List.cons c) ih

theorem splitNl_joinNl {ps : List (List Char)} (hne : ps ≠ [])
    (h : ∀ L ∈ ps, L.all (· ≠ '\n') = true) :
    splitNl (joinNl ps) = ps := by
  induction ps with
  | nil => exact absurd rfl hne
  | cons l ls ih =>
    cases ls with
    | nil =>
      show splitNl (joinNl [l]) = [l]
      exact splitNl_free (h l (by simp))
    | cons l2 ls2 =>
      rw [joinNl_cons _ (by simp), splitNl_app _ (h l (by simp)),
          ih (by simp) (fun L hL => h L (List.mem_cons_of_mem l hL))]

/-! ### C10 support: absence of `---` -/


theorem noTriple_cons_iff (c : Char) (r : List Char) :
    noTriple (c :: r) = true ↔
      startsTriple (c :: r) = false ∧ noTriple r = true := by
  show (!startsTriple (c :: r) && noTriple r) = true ↔ _
  simp [Bool.and_eq_true]

theorem startsTriple_head {c : Char} (r : List Char) (hc : c ≠ '-') :
    startsTriple (c :: r) = false := by
  simp [startsTriple, List.take, hc]

theorem startsTriple_snd (c : Char) {d : Char} (r : List Char) (hd : d ≠ '-') :
    startsTriple (c :: d :: r) = false := by
  simp [startsTriple, List.take, hd]

theorem startsTriple_third (c d : Char) {e : Char} (r : List Char)
    (he : e ≠ '-') : startsTriple (c :: d :: e :: r) = false := by
  simp [startsTriple, List.take, he]

theorem startsTriple_app {A : List Char} (B : List Char)
    (h : startsTriple A = true) : startsTriple (A ++ B) = true := by
  simp only [startsTriple, decide_eq_true_eq] at h ⊢
  have h3 : 3 ≤ A.length := by
    have := congrArg List.length h
    simp [List.length_take] at this
    omega
  rw [List.take_append_of_le_length h3, h]

theorem noTriple_left {A B : List Char} (h : noTriple (A ++ B) = true) :
    noTriple A = true := by
  induction A with
  | nil => rfl
  | cons a A ih =>
    rw [List.cons_append, noTriple_cons_iff] at h
    rw [noTriple_cons_iff]
    refine ⟨?_, ih h.2⟩
    by_contra hne
    have hT : startsTriple (a :: A) = true := by
      cases hv : startsTriple (a :: A)
      · exact absurd hv hne
      · rfl
    have := startsTriple_app B hT
    rw [List.cons_append] at this
    rw [this] at h
    exact absurd h.1 (by simp)

theorem noTriple_right {A B : List Char} (h : noTriple (A ++ B) = true) :
    noTriple B = true := by
  induction A with
  | nil => exact h
  | cons a A ih =>
    rw [List.cons_append, noTriple_cons_iff] at h
    exact ih h.2

theorem noTriple_app_cons {A B : List Char} {c : Char}
    (hA : noTriple A = true) (hB : noTriple B = true) (hc : c ≠ '-') :
    noTriple (A ++ c :: B) = true := by
  induction A with
  | nil =>
    rw [List.nil_append, noTriple_cons_iff]
    exact ⟨startsTriple_head B hc, hB⟩
  | cons a A ih =>
    rw [noTriple_cons_iff] at hA
    rw [List.cons_append, noTriple_cons_iff]
    refine ⟨?_, ih hA.2⟩
    cases A with
    | nil => exact startsTriple_snd a B hc
    | cons d A2 =>
      cases A2 with
      | nil =>
        by_cases hd : d = '-'
        · subst hd
          simp [startsTriple, List.take, hc]
        · exact startsTriple_snd a (c :: B) hd
      | cons e A3 =>
        have : startsTriple (a :: d :: e :: A3) = false := hA.1
        simp only [startsTriple, decide_eq_true_eq, List.take,
          List.cons_append] at this ⊢
        exact this

/-! ### C10 support: removeTripleDash -/

theorem rtd_triple (r : List Char) :
    removeTripleDash ('-' :: '-' :: '-' :: r) = removeTripleDash r := rfl

theorem rtd_cons {c : Char} {r : List Char}
    (h : ¬ (c = '-' ∧ r.take 2 = ['-', '-'])) :
    removeTripleDash (c :: r) = c :: removeTripleDash r := by
  rw [removeTripleDash.eq_def]
  split
  · rename_i rest heq
    injection heq with e1 e2
    exact absurd ⟨e1, by rw [e2]; rfl⟩ h
  · rename_i h2 c' rest heq
    injection heq with e1 e2
    subst e1 e2
    rfl
  · rename_i heq
    simp at heq

theorem startsTriple_iff (c : Char) (r : List Char) :
    startsTriple (c :: r) = true ↔ c = '-' ∧ r.take 2 = ['-', '-'] := by
  simp [startsTriple, List.take]

theorem rtd_id {s : List Char} (h : noTriple s = true) :
    removeTripleDash s = s := by
  induction s with
  | nil => rfl
  | cons c r ih =>
    rw [noTriple_cons_iff] at h
    have hnc : ¬ (c = '-' ∧ r.take 2 = ['-', '-']) := by
      intro hy
      rw [(startsTriple_iff c r).mpr hy] at h
      exact absurd h.1 (by simp)
    rw [rtd_cons hnc, ih h.2]

theorem noTriple_rtd : ∀ n s, s.length ≤ n →
    noTriple (removeTripleDash s) = true := by
  intro n
  induction n with
  | zero =>
    intro s hs
    rw [List.length_eq_zero.mp (Nat.le_zero.mp hs)]
    rfl
  | succ n ih =>
    intro s hs
    cases s with
    | nil => rfl
    | cons c r =>
      by_cases h3 : c = '-' ∧ r.take 2 = ['-', '-']
      · obtain ⟨hc, hr⟩ := h3
        subst hc
        cases r with
        | nil => simp at hr
        | cons d r2 =>
          cases r2 with
          | nil => simp [List.take] at hr
          | cons e r3 =>
            simp only [List.take, List.cons.injEq, and_true] at hr
            obtain ⟨hd, he⟩ := hr
            subst hd
            subst he
            rw [rtd_triple]
            exact ih r3 (by simp at hs ⊢; omega)
      · rw [rtd_cons h3, noTriple_cons_iff]
        have hnr : noTriple (removeTripleDash r) = true :=
          ih r (by simp at hs; omega)
        refine ⟨?_, hnr⟩
        by_cases hc : c = '-'
        · subst hc
          have hr2 : ¬ r.take 2 = ['-', '-'] := fun hy => h3 ⟨rfl, hy⟩
          clear h3
          cases r with
          | nil => decide
          | cons d r2 =>
            cases r2 with
            | nil =>
              rw [show removeTripleDash [d] = [d] from
                rtd_cons (fun hy => absurd hy.2 (by decide))]
              simp [startsTriple, List.take]
            | cons e r3 =>
              by_cases hd : d = '-'
              · subst hd
                have he : e ≠ '-' := by
                  intro hy
                  subst hy
                  exact hr2 rfl
                rw [rtd_cons (show ¬ ('-' = '-' ∧ (e :: r3).take 2 = ['-', '-']) by
                      intro hy
                      have h2 := hy.2
                      rw [show (e :: r3).take 2 = e :: r3.take 1 from rfl] at h2
                      injection h2 with a b
                      exact he a),
                    rtd_cons (show ¬ (e = '-' ∧ r3.take 2 = ['-', '-']) from
                      fun hy => he hy.1)]
                exact startsTriple_third '-' '-' _ he
              · rw [rtd_cons (show ¬ (d = '-' ∧ (e :: r3).take 2 = ['-', '-']) from
                      fun hy => hd hy.1)]
                exact startsTriple_snd '-' _ hd
        · exact startsTriple_head _ hc

/-! ### C10 support: replaceTabs -/

theorem rt_tab (r : List Char) :
    replaceTabs ('\t' :: r) = ' ' :: ' ' :: replaceTabs r := rfl

theorem rt_cons {c : Char} (r : List Char) (hc : c ≠ '\t') :
    replaceTabs (c :: r) = c :: replaceTabs r := by
  rw [replaceTabs.eq_def]
  split
  · rename_i heq
    injection heq with e1 e2
    exact absurd e1 hc
  · rename_i h2 c' rest heq
    injection heq with e1 e2
    subst e1 e2
    rfl
  · rename_i heq
    simp at heq

theorem rt_no_tab (s : List Char) : (replaceTabs s).all (· ≠ '\t') = true := by
  induction s with
  | nil => rfl
  | cons c r ih =>
    by_cases hc : c = '\t'
    · subst hc
      rw [rt_tab]
      simpa using ih
    · rw [rt_cons r hc]
      simpa [hc] using ih

theorem rt_id {s : List Char} (h : s.all (· ≠ '\t') = true) :
    replaceTabs s = s := by
  induction s with
  | nil => rfl
  | cons c r ih =>
    simp only [List.all_cons, Bool.and_eq_true, decide_eq_true_eq] at h
    rw [rt_cons r h.1, ih h.2]

theorem rt_take2 {r : List Char} (h : (replaceTabs r).take 2 = ['-', '-']) :
    r.take 2 = ['-', '-'] := by
  cases r with
  | nil =>
    rw [show replaceTabs ([] : List Char) = [] from rfl] at h
    simp at h
  | cons x r2 =>
    by_cases hx : x = '\t'
    · subst hx
      rw [rt_tab] at h
      simp [List.take] at h
    · rw [rt_cons r2 hx] at h
      rw [show (x :: replaceTabs r2).take 2 = x :: (replaceTabs r2).take 1 from rfl] at h
      injection h with h1 h2
      subst h1
      cases r2 with
      | nil =>
        rw [show replaceTabs ([] : List Char) = [] from rfl] at h2
        simp at h2
      | cons y r3 =>
        by_cases hy : y = '\t'
        · subst hy
          rw [rt_tab] at h2
          simp [List.take] at h2
        · rw [rt_cons r3 hy] at h2
          rw [show (y :: replaceTabs r3).take 1 = [y] from rfl] at h2
          injection h2 with h3 h4
          subst h3
          rfl

theorem noTriple_rt {s : List Char} (h : noTriple s = true) :
    noTriple (replaceTabs s) = true := by
  induction s with
  | nil => rfl
  | cons c r ih =>
    rw [noTriple_cons_iff] at h
    have ihr := ih h.2
    by_cases hc : c = '\t'
    · subst hc
      rw [rt_tab, noTriple_cons_iff]
      refine ⟨startsTriple_head _ (by decide), ?_⟩
      rw [noTriple_cons_iff]
      exact ⟨startsTriple_head _ (by decide), ihr⟩
    · rw [rt_cons r hc, noTriple_cons_iff]
      refine ⟨?_, ihr⟩
      by_cases hdash : c = '-'
      · subst hdash
        cases hS : startsTriple ('-' :: replaceTabs r)
        · rfl
        · exfalso
          have h2 := (startsTriple_iff _ _).mp hS
          have := rt_take2 h2.2
          rw [(startsTriple_iff '-' r).mpr ⟨rfl, this⟩] at h
          exact absurd h.1 (by simp)
      · exact startsTriple_head _ hdash

/-! ### C10 support: pyRstrip and fixHeaderLine -/

theorem dropWhile_nil_all {p : Char → Bool} {l : List Char}
    (h : l.dropWhile p = []) : l.all p = true := by
  induction l with
  | nil => rfl
  | cons a l ih =>
    rw [List.dropWhile_cons] at h
    by_cases ha : p a
    · rw [if_pos ha] at h
      simp [ha, ih h]
    · rw [if_neg ha] at h
      simp at h
  
theorem dropWhile_app_of_cons {p : Char → Bool} {A : List Char} {d : Char}
    {R : List Char} (B : List Char) (h : A.dropWhile p = d :: R) :
    (A ++ B).dropWhile p = d :: (R ++ B) := by
  have hA : A = A.takeWhile p ++ d :: R := by
    conv_lhs => rw [span_decomp p A]
    rw [h]
  have h2 : A ++ B = A.takeWhile p ++ d :: (R ++ B) := by
    conv_lhs => rw [hA]
    simp
  rw [h2, allP_dropWhile_append _ (all_takeWhile_true p A),
      List.dropWhile_cons, if_neg (by rw [dropWhile_head_false h]; simp)]

theorem pyRstrip_decomp (L : List Char) :
    ∃ B, L = pyRstrip L ++ B ∧ B.all isPySpace = true := by
  refine ⟨(L.reverse.takeWhile isPySpace).reverse, ?_, ?_⟩
  · conv_lhs => rw [show L = L.reverse.reverse by simp]
    conv_lhs => rw [span_decomp isPySpace L.reverse]
    rw [List.reverse_append]
    rfl
  · rw [List.all_eq_true]
    intro x hx
    rw [List.mem_reverse] at hx
    exact List.all_eq_true.mp (all_takeWhile_true isPySpace L.reverse) x hx

theorem pyRstrip_cons {c : Char} (Y : List Char) (hc : isPySpace c = false) :
    ∃ T, pyRstrip (c :: Y) = c :: T := by
  unfold pyRstrip
  rw [show (c :: Y).reverse = Y.reverse ++ [c] by simp]
  cases hd : Y.reverse.dropWhile isPySpace with
  | nil =>
    refine ⟨[], ?_⟩
    rw [allP_dropWhile_append _ (dropWhile_nil_all hd),
        List.dropWhile_cons, if_neg (by rw [hc]; simp)]
    rfl
  | cons d R =>
    refine ⟨R.reverse ++ [d], ?_⟩
    rw [dropWhile_app_of_cons _ hd]
    simp

theorem fixHeaderLine_idem (L : List Char) :
    fixHeaderLine (fixHeaderLine L) = fixHeaderLine L := by
  unfold fixHeaderLine
  by_cases hC : pyStrip L ≠ [] ∧ (pyStrip L).head? ≠ some '-' ∧
      ¬ L.contains ':' ∧ isIdentLine (pyStrip L) = true
  · rw [if_pos hC]
    rw [if_neg ?_]
    intro hC2
    have hcol : (pyRstrip L ++ [':']).contains ':' = true := by
      simp
    exact hC2.2.2.1 hcol
  · rw [if_neg hC, if_neg hC]

theorem fixHeaderLine_all {p : Char → Bool} {L : List Char}
    (h : L.all p = true) (hcolon : p ':' = true) :
    (fixHeaderLine L).all p = true := by
  unfold fixHeaderLine
  by_cases hC : pyStrip L ≠ [] ∧ (pyStrip L).head? ≠ some '-' ∧
      ¬ L.contains ':' ∧ isIdentLine (pyStrip L) = true
  case pos =>
    rw [if_pos hC]
    obtain ⟨B, hB, -⟩ := pyRstrip_decomp L
    rw [hB, List.all_append, Bool.and_eq_true] at h
    rw [List.all_append, Bool.and_eq_true]
    exact ⟨h.1, by simp [hcolon]⟩
  case neg =>
    rw [if_neg hC]
    exact h

theorem fixHeaderLine_noTriple {L : List Char} (h : noTriple L = true) :
    noTriple (fixHeaderLine L) = true := by
  unfold fixHeaderLine
  by_cases hC : pyStrip L ≠ [] ∧ (pyStrip L).head? ≠ some '-' ∧
      ¬ L.contains ':' ∧ isIdentLine (pyStrip L) = true
  case pos =>
    rw [if_pos hC]
    obtain ⟨B, hB, -⟩ := pyRstrip_decomp L
    rw [hB] at h
    exact noTriple_app_cons (noTriple_left h) rfl (by decide)
  case neg =>
    rw [if_neg hC]
    exact h

theorem pyStrip_eq_rstrip_drop (s : List Char) :
    pyStrip s = pyRstrip (s.dropWhile isPySpace) := rfl

theorem itemRepl_drop_ws (g : List Char) :
    (itemRepl g).dropWhile isPySpace = '-' :: ' ' :: '"' :: (g ++ ['"']) := by
  show (' ' :: ' ' :: '-' :: ' ' :: '"' :: (g ++ ['"'])).dropWhile isPySpace = _
  rw [List.dropWhile_cons, if_pos (by decide), List.dropWhile_cons,
      if_pos (by decide), List.dropWhile_cons, if_neg (by decide)]

theorem fixHeaderLine_itemRepl (g : List Char) :
    fixHeaderLine (itemRepl g) = itemRepl g := by
  have hhead : (pyStrip (itemRepl g)).head? = some '-' := by
    rw [pyStrip_eq_rstrip_drop, itemRepl_drop_ws]
    obtain ⟨T, hT⟩ := pyRstrip_cons _ (by decide : isPySpace '-' = false)
    rw [hT]
    rfl
  unfold fixHeaderLine
  rw [if_neg (fun hC => hC.2.1 hhead)]

theorem itemRepl_free {g : List Char} (hg : g.all (· ≠ '\n') = true) :
    (itemRepl g).all (· ≠ '\n') = true := by
  rw [List.all_eq_true]
  intro x hx
  rw [show itemRepl g = ' ' :: ' ' :: '-' :: ' ' :: '"' :: (g ++ ['"']) from rfl] at hx
  simp only [List.mem_cons, List.mem_append, List.mem_singleton] at hx
  rcases hx with h | h | h | h | h | h | h
  · subst h
    decide
  · subst h
    decide
  · subst h
    decide
  · subst h
    decide
  · subst h
    decide
  · exact List.all_eq_true.mp hg x h
  · rcases h with h | h
    · subst h
      decide
    · simp at h

/-! ### C10 support: transferring predicates across lines -/

theorem pred_splitNl (P : List Char → Prop)
    (hpre : ∀ A B : List Char, P (A ++ B) → P A)
    (hsuf : ∀ A B : List Char, P (A ++ B) → P B) :
    ∀ n s, s.length ≤ n → P s → ∀ L ∈ splitNl s, P L := by
  intro n
  induction n with
  | zero =>
    intro s hs hP L hL
    have hnil : s = [] := List.length_eq_zero.mp (Nat.le_zero.mp hs)
    subst hnil
    simp [splitNl] at hL
    subst hL
    exact hP
  | succ n ih =>
    intro s hs hP L hL
    cases hd : s.dropWhile (· ≠ '\n') with
    | nil =>
      have hfree : s.all (· ≠ '\n') = true := dropWhile_nil_all hd
      rw [splitNl_free hfree] at hL
      simp at hL
      subst hL
      exact hP
    | cons c r =>
      have hc : c = '\n' := by
        have := dropWhile_head_false hd
        simpa using this
      subst hc
      have hs2 : s = s.takeWhile (· ≠ '\n') ++ '\n' :: r := by
        conv_lhs => rw [span_decomp (· ≠ '\n') s]
        rw [hd]
      rw [hs2, splitNl_app _ (all_takeWhile_true _ s)] at hL
      rcases List.mem_cons.mp hL with h1 | h1
      · subst h1
        exact hpre _ _ (hs2 ▸ hP)
      · have hPr : P r := hsuf ['\n'] r (hsuf _ _ (hs2 ▸ hP))
        have hlen : r.length ≤ n := by
          have hlen2 := congrArg List.length hs2
          simp only [List.length_append, List.length_cons] at hlen2
          omega
        exact ih r hlen hPr L h1

theorem pred_joinNl (P : List Char → Prop)
    (hjoin : ∀ A B : List Char, P A → P B → P (A ++ '\n' :: B)) :
    ∀ ps : List (List Char), ps ≠ [] → (∀ L ∈ ps, P L) → P (joinNl ps) := by
  intro ps
  induction ps with
  | nil =>
    intro h
    exact absurd rfl h
  | cons l ls ih =>
    intro _ hall
    cases ls with
    | nil => exact hall l (by simp)
    | cons l2 ls2 =>
      rw [joinNl_cons _ (by simp)]
      exact hjoin _ _ (hall l (by simp))
        (ih (by simp) (fun L hL => hall L (List.mem_cons_of_mem l hL)))

theorem noTriple_splitNl {s : List Char} (h : noTriple s = true) :
    ∀ L ∈ splitNl s, noTriple L = true :=
  pred_splitNl (fun L => noTriple L = true)
    (fun _ _ hx => noTriple_left hx) (fun _ _ hx => noTriple_right hx)
    s.length s (le_refl _) h

theorem allP_splitNl {p : Char → Bool} {s : List Char} (h : s.all p = true) :
    ∀ L ∈ splitNl s, L.all p = true :=
  pred_splitNl (fun L => L.all p = true)
    (fun A B hx => by
      have hx2 : (A ++ B).all p = true := hx
      rw [List.all_append, Bool.and_eq_true] at hx2
      exact hx2.1)
    (fun A B hx => by
      have hx2 : (A ++ B).all p = true := hx
      rw [List.all_append, Bool.and_eq_true] at hx2
      exact hx2.2)
    s.length s (le_refl _) h

theorem noTriple_joinNl {ps : List (List Char)} (hne : ps ≠ [])
    (h : ∀ L ∈ ps, noTriple L = true) : noTriple (joinNl ps) = true :=
  pred_joinNl (fun L => noTriple L = true)
    (fun _ _ hA hB => noTriple_app_cons hA hB (by decide)) ps hne h

theorem allP_joinNl {p : Char → Bool} (hnl : p '\n' = true)
    {ps : List (List Char)} (hne : ps ≠ [])
    (h : ∀ L ∈ ps, L.all p = true) : (joinNl ps).all p = true :=
  pred_joinNl (fun L => L.all p = true)
    (fun A B hA hB => by
      show (A ++ '\n' :: B).all p = true
      rw [List.all_append, Bool.and_eq_true]
      exact ⟨hA, by simp [hnl, hB]⟩) ps hne h

/-! ### C10 support: qsubGo unfolding and match-position lemmas -/

theorem qsubGo_succ (f : Nat) (s : List Char) :
    qsubGo (f + 1) s = if s.isEmpty then [] else
      match tryMatchAt s with
      | some (g, rest) =>
        itemRepl g ++
          match rest with
          | '\n' :: r => '\n' :: qsubGo f r
          | _ => rest
      | none =>
        s.takeWhile (· ≠ '\n') ++
          match s.dropWhile (· ≠ '\n') with
          | '\n' :: r => '\n' :: qsubGo f r
          | rest => rest := rfl

theorem qsubGo_nil (f : Nat) : qsubGo f [] = [] := by
  cases f with
  | zero => rfl
  | succ f => rfl

theorem isEmpty_false_of_ne {s : List Char} (hs : s ≠ []) :
    ¬ s.isEmpty = true := fun hE => hs (List.isEmpty_iff.mp hE)

theorem qsubGo_some_nl {s g : List Char} {r : List Char} (f : Nat)
    (hs : s ≠ []) (hm : tryMatchAt s = some (g, '\n' :: r)) :
    qsubGo (f + 1) s = itemRepl g ++ '\n' :: qsubGo f r := by
  rw [qsubGo_succ, if_neg (isEmpty_false_of_ne hs), hm]
  rfl

theorem qsubGo_some_end {s g : List Char} (f : Nat)
    (hs : s ≠ []) (hm : tryMatchAt s = some (g, [])) :
    qsubGo (f + 1) s = itemRepl g := by
  rw [qsubGo_succ, if_neg (isEmpty_false_of_ne hs), hm]
  simp

theorem qsubGo_none_nl {s : List Char} {r : List Char} (f : Nat)
    (hs : s ≠ []) (hm : tryMatchAt s = none)
    (hd : s.dropWhile (· ≠ '\n') = '\n' :: r) :
    qsubGo (f + 1) s = s.takeWhile (· ≠ '\n') ++ '\n' :: qsubGo f r := by
  rw [qsubGo_succ, if_neg (isEmpty_false_of_ne hs), hm, hd]
  rfl

theorem qsubGo_none_free {s : List Char} (f : Nat)
    (hs : s ≠ []) (hm : tryMatchAt s = none)
    (hd : s.dropWhile (· ≠ '\n') = []) :
    qsubGo (f + 1) s = s := by
  rw [qsubGo_succ, if_neg (isEmpty_false_of_ne hs), hm, hd]
  conv_rhs => rw [span_decomp (· ≠ '\n') s]
  rw [hd]

theorem dropWhile_ws_shift {W : List Char} (X : List Char)
    (hW : W.all isPySpace = true) :
    (W ++ '\n' :: X).dropWhile isPySpace = X.dropWhile isPySpace := by
  rw [show W ++ '\n' :: X = (W ++ ['\n']) ++ X by simp]
  exact allP_dropWhile_append X (by simp [hW, isPySpace])

theorem tm_shift {W : List Char} (X : List Char) (hW : W.all isPySpace = true) :
    tryMatchAt (W ++ '\n' :: X) = tryMatchAt X := by
  unfold tryMatchAt
  rw [dropWhile_ws_shift X hW]

theorem tm_stop {W : List Char} {c : Char} (Z : List Char)
    (hW : W.all isPySpace = true) (hcw : isPySpace c = false) (hc : c ≠ '-') :
    tryMatchAt (W ++ c :: Z) = none := by
  unfold tryMatchAt
  rw [allP_dropWhile_append _ hW, List.dropWhile_cons, if_neg (by rw [hcw]; simp)]
  split
  · rename_i r2 heq
    injection heq with e1 e2
    exact absurd e1 hc
  · rfl

theorem tm_dash {W : List Char} (Z : List Char) (hW : W.all isPySpace = true) :
    tryMatchAt (W ++ '-' :: Z) = quoteSeek Z := by
  unfold tryMatchAt
  rw [allP_dropWhile_append _ hW, List.dropWhile_cons, if_neg (by decide)]
  rfl

theorem qs_shift {W : List Char} (X : List Char) (hW : W.all isPySpace = true) :
    quoteSeek (W ++ '\n' :: X) = quoteSeek X := by
  unfold quoteSeek
  rw [dropWhile_ws_shift X hW]

theorem qs_stop {W : List Char} {c : Char} (Z : List Char)
    (hW : W.all isPySpace = true) (hcw : isPySpace c = false) (hc : c ≠ '"') :
    quoteSeek (W ++ c :: Z) = none := by
  unfold quoteSeek
  rw [allP_dropWhile_append _ hW, List.dropWhile_cons, if_neg (by rw [hcw]; simp)]
  split
  · rename_i r4 heq
    injection heq with e1 e2
    exact absurd e1 hc
  · rfl

theorem tw_nl {M : List Char} (X : List Char) (hM : M.all (· ≠ '\n') = true) :
    (M ++ '\n' :: X).takeWhile (· ≠ '\n') = M := by
  rw [allP_takeWhile_append _ hM, List.takeWhile_cons, if_neg (by simp)]
  simp

theorem dw_nl {M : List Char} (X : List Char) (hM : M.all (· ≠ '\n') = true) :
    (M ++ '\n' :: X).dropWhile (· ≠ '\n') = '\n' :: X := by
  rw [allP_dropWhile_append _ hM, List.dropWhile_cons, if_neg (by simp)]

theorem qs_line_nl {W M : List Char} (X : List Char)
    (hW : W.all isPySpace = true) (hM : M.all (· ≠ '\n') = true) :
    quoteSeek (W ++ '"' :: (M ++ '\n' :: X)) =
      if 2 ≤ M.length ∧ M.getLast? = some '"' then
        some (M.dropLast, '\n' :: X)
      else none := by
  unfold quoteSeek
  rw [allP_dropWhile_append _ hW, List.dropWhile_cons, if_neg (by decide)]
  show (let lineRest := (M ++ '\n' :: X).takeWhile (· ≠ '\n')
        if 2 ≤ lineRest.length ∧ lineRest.getLast? = some '"' then
          some (lineRest.dropLast, (M ++ '\n' :: X).dropWhile (· ≠ '\n'))
        else none) = _
  rw [show (M ++ '\n' :: X).takeWhile (· ≠ '\n') = M from tw_nl X hM,
      show (M ++ '\n' :: X).dropWhile (· ≠ '\n') = '\n' :: X from dw_nl X hM]

theorem qs_line_end {W M : List Char}
    (hW : W.all isPySpace = true) (hM : M.all (· ≠ '\n') = true) :
    quoteSeek (W ++ '"' :: M) =
      if 2 ≤ M.length ∧ M.getLast? = some '"' then
        some (M.dropLast, [])
      else none := by
  unfold quoteSeek
  rw [allP_dropWhile_append _ hW, List.dropWhile_cons, if_neg (by decide)]
  show (let lineRest := M.takeWhile (· ≠ '\n')
        if 2 ≤ lineRest.length ∧ lineRest.getLast? = some '"' then
          some (lineRest.dropLast, M.dropWhile (· ≠ '\n'))
        else none) = _
  rw [show M.takeWhile (· ≠ '\n') = M from takeWhile_all_id hM,
      show M.dropWhile (· ≠ '\n') = [] from dropWhile_all_nil hM]

theorem tryMatchAt_itemRepl {g X : List Char} (hg : g ≠ [])
    (hgf : g.all (· ≠ '\n') = true) (hX : X = [] ∨ ∃ w, X = '\n' :: w) :
    tryMatchAt (itemRepl g ++ X) = some (g, X) := by
  have hconc : (g ++ ['"']).all (· ≠ '\n') = true := by
    rw [List.all_append, Bool.and_eq_true]
    exact ⟨hgf, by decide⟩
  have hcond : 2 ≤ (g ++ ['"']).length ∧ (g ++ ['"']).getLast? = some '"' := by
    constructor
    · have : 1 ≤ g.length := by
        cases g with
        | nil => exact absurd rfl hg
        | cons a b => simp
      simp only [List.length_append, List.length_singleton]
      omega
    · exact List.getLast?_concat _
  have hrepl : itemRepl g ++ X =
      [' ', ' '] ++ '-' :: ([' '] ++ '"' :: ((g ++ ['"']) ++ X)) := by
    show ' ' :: ' ' :: '-' :: ' ' :: '"' :: (g ++ ['"']) ++ X = _
    simp
  rw [hrepl, tm_dash _ (by decide)]
  rcases hX with hX | ⟨w, hX⟩
  · subst hX
    rw [List.append_nil, qs_line_end (by decide) hconc, if_pos hcond,
        List.dropLast_concat]
  · subst hX
    rw [show (g ++ ['"']) ++ '\n' :: w = (g ++ ['"']) ++ '\n' :: w from rfl,
        qs_line_nl w (by decide) hconc, if_pos hcond, List.dropLast_concat]

theorem tryMatchAt_some_struct {s g rest : List Char}
    (h : tryMatchAt s = some (g, rest)) :
    g ≠ [] ∧ g.all (· ≠ '\n') = true ∧
      (∃ X Y, s = X ++ g ++ Y) ∧
      (∃ pre, pre ≠ [] ∧ s = pre ++ rest) ∧
      (rest = [] ∨ ∃ r, rest = '\n' :: r) := by
  unfold tryMatchAt at h
  cases hd : s.dropWhile isPySpace with
  | nil =>
    rw [hd] at h
    simp at h
  | cons c r2 =>
    rw [hd] at h
    have hc : c = '-' := by
      by_contra hne
      rw [show (match c :: r2 with
            | '-' :: r2 => quoteSeek r2
            | _ => none) = none by
          split
          · rename_i heq
            injection heq with e1 e2
            exact absurd e1 hne
          · rfl] at h
      simp at h
    subst hc
    have hq : quoteSeek r2 = some (g, rest) := h
    unfold quoteSeek at hq
    cases hd2 : r2.dropWhile isPySpace with
    | nil =>
      rw [hd2] at hq
      simp at hq
    | cons c2 r4 =>
      rw [hd2] at hq
      have hc2 : c2 = '"' := by
        by_contra hne
        rw [show (match c2 :: r4 with
              | '"' :: r4 =>
                let lineRest := r4.takeWhile (· ≠ '\n')
                if 2 ≤ lineRest.length ∧ lineRest.getLast? = some '"' then
                  some (lineRest.dropLast, r4.dropWhile (· ≠ '\n'))
                else none
              | _ => none) = none by
            split
            · rename_i heq
              injection heq with e1 e2
              exact absurd e1 hne
            · rfl] at hq
        simp at hq
      subst hc2
      have hq2 : (if 2 ≤ (r4.takeWhile (· ≠ '\n')).length ∧
            (r4.takeWhile (· ≠ '\n')).getLast? = some '"' then
          some ((r4.takeWhile (· ≠ '\n')).dropLast, r4.dropWhile (· ≠ '\n'))
        else none) = some (g, rest) := hq
      by_cases hcond : 2 ≤ (r4.takeWhile (· ≠ '\n')).length ∧
          (r4.takeWhile (· ≠ '\n')).getLast? = some '"'
      case neg =>
        rw [if_neg hcond] at hq2
        simp at hq2
      case pos =>
      rw [if_pos hcond] at hq2
      injection hq2 with hq3
      injection hq3 with hg1 hr1
      obtain ⟨l', hl'⟩ := List.getLast?_eq_some_iff.mp hcond.2
      have hgl : g = l' := by
        rw [← hg1, hl', List.dropLast_concat]
      have hs1 : s = s.takeWhile isPySpace ++ '-' :: r2 := by
        conv_lhs => rw [span_decomp isPySpace s]
        rw [hd]
      have hs2 : r2 = r2.takeWhile isPySpace ++ '"' :: r4 := by
        conv_lhs => rw [span_decomp isPySpace r2]
        rw [hd2]
      have hs3 : r4 = (g ++ ['"']) ++ rest := by
        conv_lhs => rw [span_decomp (· ≠ '\n') r4]
        rw [hl', ← hgl, hr1]
      have hlfree : (r4.takeWhile (· ≠ '\n')).all (· ≠ '\n') = true :=
        all_takeWhile_true _ r4
      refine ⟨?_, ?_, ?_, ?_, ?_⟩
      · intro hgnil
        have := hcond.1
        rw [hl', ← hgl, hgnil] at this
        simp at this
      · rw [List.all_eq_true]
        intro x hx
        have hx2 : x ∈ r4.takeWhile (· ≠ '\n') := by
          rw [hl', ← hgl]
          exact List.mem_append_left _ hx
        exact List.all_eq_true.mp hlfree x hx2
      · refine ⟨s.takeWhile isPySpace ++ '-' :: r2.takeWhile isPySpace ++ ['"'],
          ['"'] ++ rest, ?_⟩
        conv_lhs => rw [hs1]
        conv_lhs => rw [hs2]
        conv_lhs => rw [hs3]
        simp
      · refine ⟨s.takeWhile isPySpace ++ '-' :: r2.takeWhile isPySpace ++
          '"' :: g ++ ['"'], by simp, ?_⟩
        conv_lhs => rw [hs1]
        conv_lhs => rw [hs2]
        conv_lhs => rw [hs3]
        simp
      · rw [← hr1]
        cases hr4 : r4.dropWhile (· ≠ '\n') with
        | nil => exact Or.inl rfl
        | cons d w =>
          right
          have hdnl : d = '\n' := by
            have := dropWhile_head_false hr4
            simpa using this
          subst hdnl
          exact ⟨w, rfl⟩

theorem all_sub_app_cons {p : Char → Bool} {W : List Char} {c : Char}
    {M : List Char} (h : (W ++ c :: M).all p = true) : M.all p = true := by
  rw [List.all_append, Bool.and_eq_true, List.all_cons, Bool.and_eq_true] at h
  exact h.2.2

theorem app_cons_assoc (W : List Char) (c : Char) (M X : List Char) :
    (W ++ c :: M) ++ X = W ++ c :: (M ++ X) := by simp

/-- A no-match position stays a no-match position after the quoted-item
rewrite runs on the text, and likewise for the quote-seeking continuation:
the substitution never creates a new match site. -/
theorem nm_nq : ∀ f : Nat,
    (∀ s, tryMatchAt s = none → tryMatchAt (qsubGo f s) = none) ∧
    (∀ s, quoteSeek s = none → quoteSeek (qsubGo f s) = none) := by
  intro f
  induction f with
  | zero => exact ⟨fun s h => h, fun s h => h⟩
  | succ f ih =>
    obtain ⟨NM, NQ⟩ := ih
    constructor
    · intro s hm
      by_cases hs : s = []
      · subst hs
        rw [qsubGo_nil]
        exact hm
      cases hd : s.dropWhile (· ≠ '\n') with
      | nil =>
        rw [qsubGo_none_free f hs hm hd]
        exact hm
      | cons d r =>
        have hdnl : d = '\n' := by simpa using dropWhile_head_false hd
        subst hdnl
        have hL1free : (s.takeWhile (· ≠ '\n')).all (· ≠ '\n') = true :=
          all_takeWhile_true _ s
        have hsdec : s = s.takeWhile (· ≠ '\n') ++ '\n' :: r := by
          conv_lhs => rw [span_decomp (· ≠ '\n') s]
          rw [hd]
        rw [qsubGo_none_nl f hs hm hd]
        generalize hLgen : s.takeWhile (· ≠ '\n') = L1 at hL1free hsdec ⊢
        subst hsdec
        rcases first_nonp_decomp isPySpace L1 with hws | ⟨W, c, M, hLd, hWall, hcw⟩
        · rw [tm_shift _ hws]
          rw [tm_shift _ hws] at hm
          exact NM r hm
        · subst hLd
          have hM : M.all (· ≠ '\n') = true := all_sub_app_cons hL1free
          rw [app_cons_assoc] at hm ⊢
          by_cases hcdash : c = '-'
          · subst hcdash
            rw [tm_dash _ hWall] at hm ⊢
            rcases first_nonp_decomp isPySpace M with hMws | ⟨W2, c2, M2, hMd, hW2, hc2w⟩
            · rw [qs_shift _ hMws] at hm ⊢
              exact NQ r hm
            · subst hMd
              have hM2 : M2.all (· ≠ '\n') = true := all_sub_app_cons hM
              rw [app_cons_assoc] at hm ⊢
              by_cases hc2q : c2 = '"'
              · subst hc2q
                rw [qs_line_nl _ hW2 hM2] at hm ⊢
                by_cases hcond : 2 ≤ M2.length ∧ M2.getLast? = some '"'
                · rw [if_pos hcond] at hm
                  simp at hm
                · rw [if_neg hcond]
              · rw [qs_stop _ hW2 hc2w hc2q]
          · rw [tm_stop _ hWall hcw hcdash]
    · intro s hq
      by_cases hs : s = []
      · subst hs
        rw [qsubGo_nil]
        exact hq
      cases hm : tryMatchAt s with
      | some gr =>
        obtain ⟨g, rest⟩ := gr
        obtain ⟨hgne, hgfree, -, -, hrest⟩ := tryMatchAt_some_struct hm
        rcases hrest with hrest | ⟨w, hrest⟩
        · subst hrest
          rw [qsubGo_some_end f hs hm]
          rw [show itemRepl g = [' ', ' '] ++ '-' :: (' ' :: '"' :: (g ++ ['"'])) from rfl]
          exact qs_stop _ (by decide) (by decide) (by decide)
        · subst hrest
          rw [qsubGo_some_nl f hs hm]
          rw [show itemRepl g ++ '\n' :: qsubGo f w =
            [' ', ' '] ++ '-' :: (' ' :: '"' :: (g ++ ['"']) ++ '\n' :: qsubGo f w) by
              show ' ' :: ' ' :: '-' :: ' ' :: '"' :: (g ++ ['"']) ++ '\n' :: qsubGo f w = _
              simp]
          exact qs_stop _ (by decide) (by decide) (by decide)
      | none =>
        cases hd : s.dropWhile (· ≠ '\n') with
        | nil =>
          rw [qsubGo_none_free f hs hm hd]
          exact hq
        | cons d r =>
          have hdnl : d = '\n' := by simpa using dropWhile_head_false hd
          subst hdnl
          have hL1free : (s.takeWhile (· ≠ '\n')).all (· ≠ '\n') = true :=
            all_takeWhile_true _ s
          have hsdec : s = s.takeWhile (· ≠ '\n') ++ '\n' :: r := by
            conv_lhs => rw [span_decomp (· ≠ '\n') s]
            rw [hd]
          rw [qsubGo_none_nl f hs hm hd]
          generalize hLgen : s.takeWhile (· ≠ '\n') = L1 at hL1free hsdec ⊢
          subst hsdec
          rcases first_nonp_decomp isPySpace L1 with hws | ⟨W, c, M, hLd, hWall, hcw⟩
          · rw [qs_shift _ hws]
            rw [qs_shift _ hws] at hq
            exact NQ r hq
          · subst hLd
            have hM : M.all (· ≠ '\n') = true := all_sub_app_cons hL1free
            rw [app_cons_assoc] at hq ⊢
            by_cases hcq : c = '"'
            · subst hcq
              rw [qs_line_nl _ hWall hM] at hq ⊢
              by_cases hcond : 2 ≤ M.length ∧ M.getLast? = some '"'
              · rw [if_pos hcond] at hq
                simp at hq
              · rw [if_neg hcond]
            · rw [qs_stop _ hWall hcw hcq]


theorem lineTail_free {s t : List Char} (ht : LineTail s t)
    (hfree : s.all (· ≠ '\n') = true) : t = s := by
  cases ht with
  | refl => rfl
  | step h ht' =>
    rw [dropWhile_all_nil hfree] at h
    cases h

theorem lineStable_nil : lineStable [] := by
  intro g rest hmm
  rw [show tryMatchAt [] = none from rfl] at hmm
  cases hmm

theorem qsubGo_fix : ∀ f s, (∀ t, LineTail s t → lineStable t) →
    qsubGo f s = s := by
  intro f
  induction f with
  | zero =>
    intro s _
    rfl
  | succ f ih =>
    intro s hstab
    by_cases hs : s = []
    · subst hs
      exact qsubGo_nil _
    cases hm : tryMatchAt s with
    | some gr =>
      obtain ⟨g, rest⟩ := gr
      obtain ⟨hgne, hgfree, -, -, hrest⟩ := tryMatchAt_some_struct hm
      have heq : itemRepl g ++ rest = s := hstab s (LineTail.refl s) g rest hm
      rcases hrest with hrest | ⟨w, hrest⟩
      · subst hrest
        rw [qsubGo_some_end f hs hm, ← heq]
        simp
      · subst hrest
        rw [qsubGo_some_nl f hs hm]
        have hfree : (itemRepl g).all (· ≠ '\n') = true := itemRepl_free hgfree
        have hdw : s.dropWhile (· ≠ '\n') = '\n' :: w := by
          rw [← heq]
          exact dw_nl w hfree
        have hsub : ∀ t, LineTail w t → lineStable t :=
          fun t ht => hstab t (LineTail.step hdw ht)
        rw [ih w hsub, heq]
    | none =>
      cases hd : s.dropWhile (· ≠ '\n') with
      | nil => exact qsubGo_none_free f hs hm hd
      | cons d r =>
        have hdnl : d = '\n' := by simpa using dropWhile_head_false hd
        subst hdnl
        rw [qsubGo_none_nl f hs hm hd]
        have hsub : ∀ t, LineTail r t → lineStable t :=
          fun t ht => hstab t (LineTail.step hd ht)
        rw [ih r hsub]
        conv_rhs => rw [span_decomp (· ≠ '\n') s]
        rw [hd]

theorem qsubGo_stable : ∀ f s, s.length ≤ f →
    ∀ t, LineTail (qsubGo f s) t → lineStable t := by
  intro f
  induction f with
  | zero =>
    intro s hlen t ht
    have hnil : s = [] := List.length_eq_zero.mp (Nat.le_zero.mp hlen)
    subst hnil
    have ht2 : t = [] := lineTail_free ht rfl
    subst ht2
    exact lineStable_nil
  | succ f ih =>
    intro s hlen t ht
    by_cases hs : s = []
    · subst hs
      rw [qsubGo_nil] at ht
      have ht2 : t = [] := lineTail_free ht rfl
      subst ht2
      exact lineStable_nil
    cases hm : tryMatchAt s with
    | some gr =>
      obtain ⟨g, rest⟩ := gr
      obtain ⟨hgne, hgfree, -, ⟨pre, hprene, hpredec⟩, hrest⟩ :=
        tryMatchAt_some_struct hm
      rcases hrest with hrest | ⟨w, hrest⟩
      · subst hrest
        rw [qsubGo_some_end f hs hm] at ht
        have ht2 : t = itemRepl g := lineTail_free ht (itemRepl_free hgfree)
        subst ht2
        intro g2 rest2 hmm
        rw [show itemRepl g = itemRepl g ++ [] by simp,
            tryMatchAt_itemRepl hgne hgfree (Or.inl rfl)] at hmm
        injection hmm with h1
        injection h1 with hg2 hr2
        rw [← hg2, ← hr2]
        simp
      · subst hrest
        rw [qsubGo_some_nl f hs hm] at ht
        cases ht with
        | refl =>
          intro g2 rest2 hmm
          rw [tryMatchAt_itemRepl hgne hgfree (Or.inr ⟨_, rfl⟩)] at hmm
          injection hmm with h1
          injection h1 with hg2 hr2
          rw [← hg2, ← hr2]
        | step h ht' =>
          rw [dw_nl _ (itemRepl_free hgfree)] at h
          injection h with h1 h2
          have hwlen : w.length ≤ f := by
            have hl := congrArg List.length hpredec
            simp only [List.length_append, List.length_cons] at hl
            have hp : 0 < pre.length := List.length_pos.mpr hprene
            omega
          rw [← h2] at ht'
          exact ih w hwlen t ht'
    | none =>
      cases hd : s.dropWhile (· ≠ '\n') with
      | nil =>
        rw [qsubGo_none_free f hs hm hd] at ht
        have hfree : s.all (· ≠ '\n') = true := dropWhile_nil_all hd
        have ht2 : t = s := lineTail_free ht hfree
        subst ht2
        intro g rest hmm
        rw [hm] at hmm
        cases hmm
      | cons d r =>
        have hdnl : d = '\n' := by simpa using dropWhile_head_false hd
        subst hdnl
        rw [qsubGo_none_nl f hs hm hd] at ht
        cases ht with
        | refl =>
          intro g rest hmm
          have hnone : tryMatchAt (qsubGo (f + 1) s) = none := (nm_nq (f + 1)).1 s hm
          rw [qsubGo_none_nl f hs hm hd] at hnone
          rw [hnone] at hmm
          cases hmm
        | step h ht' =>
          rw [dw_nl _ (all_takeWhile_true _ s)] at h
          injection h with h1 h2
          have hsdec : s = s.takeWhile (· ≠ '\n') ++ '\n' :: r := by
            conv_lhs => rw [span_decomp (· ≠ '\n') s]
            rw [hd]
          have hrlen : r.length ≤ f := by
            have hl := congrArg List.length hsdec
            simp only [List.length_append, List.length_cons] at hl
            omega
          rw [← h2] at ht'
          exact ih r hrlen t ht'

theorem noTriple_cons_of {c : Char} {X : List Char}
    (h1 : startsTriple (c :: X) = false) (h2 : noTriple X = true) :
    noTriple (c :: X) = true := (noTriple_cons_iff c X).mpr ⟨h1, h2⟩

theorem noTriple_itemRepl_app {g X : List Char} (hg : noTriple g = true)
    (hX : noTriple X = true) : noTriple (itemRepl g ++ '\n' :: X) = true := by
  have h1 : noTriple (g ++ ['"']) = true := noTriple_app_cons hg rfl (by decide)
  have h2 : noTriple ((g ++ ['"']) ++ '\n' :: X) = true :=
    noTriple_app_cons h1 hX (by decide)
  show noTriple (' ' :: ' ' :: '-' :: ' ' :: '"' :: ((g ++ ['"']) ++ '\n' :: X)) = true
  refine noTriple_cons_of (startsTriple_head _ (by decide)) ?_
  refine noTriple_cons_of (startsTriple_head _ (by decide)) ?_
  refine noTriple_cons_of (startsTriple_snd _ _ (by decide)) ?_
  refine noTriple_cons_of (startsTriple_head _ (by decide)) ?_
  exact noTriple_cons_of (startsTriple_head _ (by decide)) h2

theorem noTriple_itemRepl_only {g : List Char} (hg : noTriple g = true) :
    noTriple (itemRepl g) = true := by
  have h1 : noTriple (g ++ ['"']) = true := noTriple_app_cons hg rfl (by decide)
  show noTriple (' ' :: ' ' :: '-' :: ' ' :: '"' :: (g ++ ['"'])) = true
  refine noTriple_cons_of (startsTriple_head _ (by decide)) ?_
  refine noTriple_cons_of (startsTriple_head _ (by decide)) ?_
  refine noTriple_cons_of (startsTriple_snd _ _ (by decide)) ?_
  refine noTriple_cons_of (startsTriple_head _ (by decide)) ?_
  exact noTriple_cons_of (startsTriple_head _ (by decide)) h1

theorem noTriple_qsubGo : ∀ f s, noTriple s = true →
    noTriple (qsubGo f s) = true := by
  intro f
  induction f with
  | zero =>
    intro s h
    exact h
  | succ f ih =>
    intro s h
    by_cases hs : s = []
    · subst hs
      rw [qsubGo_nil]
      rfl
    cases hm : tryMatchAt s with
    | some gr =>
      obtain ⟨g, rest⟩ := gr
      obtain ⟨-, -, ⟨X, Y, hXY⟩, ⟨pre, -, hpre⟩, hrest⟩ :=
        tryMatchAt_some_struct hm
      have hgT : noTriple g = true := noTriple_right (noTriple_left (hXY ▸ h))
      rcases hrest with hrest | ⟨w, hrest⟩
      · subst hrest
        rw [qsubGo_some_end f hs hm]
        exact noTriple_itemRepl_only hgT
      · subst hrest
        rw [qsubGo_some_nl f hs hm]
        have hw : noTriple w = true :=
          ((noTriple_cons_iff _ _).mp (noTriple_right (hpre ▸ h))).2
        exact noTriple_itemRepl_app hgT (ih w hw)
    | none =>
      cases hd : s.dropWhile (· ≠ '\n') with
      | nil =>
        rw [qsubGo_none_free f hs hm hd]
        exact h
      | cons d r =>
        have hdnl : d = '\n' := by simpa using dropWhile_head_false hd
        subst hdnl
        rw [qsubGo_none_nl f hs hm hd]
        have hsdec : s = s.takeWhile (· ≠ '\n') ++ '\n' :: r := by
          conv_lhs => rw [span_decomp (· ≠ '\n') s]
          rw [hd]
        have hL : noTriple (s.takeWhile (· ≠ '\n')) = true :=
          noTriple_left (hsdec ▸ h)
        have hr : noTriple r = true :=
          ((noTriple_cons_iff _ _).mp (noTriple_right (hsdec ▸ h))).2
        exact noTriple_app_cons hL (ih r hr) (by decide)

theorem allP_qsubGo {p : Char → Bool} (hsp : p ' ' = true) (hda : p '-' = true)
    (hqu : p '"' = true) (hnl : p '\n' = true) :
    ∀ f s, s.all p = true → (qsubGo f s).all p = true := by
  intro f
  induction f with
  | zero =>
    intro s h
    exact h
  | succ f ih =>
    intro s h
    by_cases hs : s = []
    · subst hs
      rw [qsubGo_nil]
      rfl
    cases hm : tryMatchAt s with
    | some gr =>
      obtain ⟨g, rest⟩ := gr
      obtain ⟨-, -, ⟨X, Y, hXY⟩, ⟨pre, -, hpre⟩, hrest⟩ :=
        tryMatchAt_some_struct hm
      have hg : g.all p = true := by
        have h2 : ((X ++ g) ++ Y).all p = true := hXY ▸ h
        rw [List.all_append, Bool.and_eq_true, List.all_append,
            Bool.and_eq_true] at h2
        exact h2.1.2
      rcases hrest with hrest | ⟨w, hrest⟩
      · subst hrest
        rw [qsubGo_some_end f hs hm]
        show (' ' :: ' ' :: '-' :: ' ' :: '"' :: (g ++ ['"'])).all p = true
        simp [List.all_cons, List.all_append, hsp, hda, hqu, hg]
      · subst hrest
        rw [qsubGo_some_nl f hs hm]
        have hw : w.all p = true := by
          have h2 : (pre ++ '\n' :: w).all p = true := hpre ▸ h
          rw [List.all_append, Bool.and_eq_true, List.all_cons,
              Bool.and_eq_true] at h2
          exact h2.2.2
        show (' ' :: ' ' :: '-' :: ' ' :: '"' ::
          ((g ++ ['"']) ++ '\n' :: qsubGo f w)).all p = true
        simp [List.all_cons, List.all_append, hsp, hda, hqu, hnl, hg, ih w hw]
    | none =>
      cases hd : s.dropWhile (· ≠ '\n') with
      | nil =>
        rw [qsubGo_none_free f hs hm hd]
        exact h
      | cons d r =>
        have hdnl : d = '\n' := by simpa using dropWhile_head_false hd
        subst hdnl
        rw [qsubGo_none_nl f hs hm hd]
        have hsdec : s = s.takeWhile (· ≠ '\n') ++ '\n' :: r := by
          conv_lhs => rw [span_decomp (· ≠ '\n') s]
          rw [hd]
        have h2 : (s.takeWhile (· ≠ '\n') ++ '\n' :: r).all p = true := hsdec ▸ h
        rw [List.all_append, Bool.and_eq_true, List.all_cons,
            Bool.and_eq_true] at h2
        rw [List.all_append, Bool.and_eq_true, List.all_cons,
            Bool.and_eq_true]
        exact ⟨h2.1, hnl, ih r h2.2.2⟩

theorem splitNl_append_nl (A B : List Char) :
    splitNl (A ++ '\n' :: B) = splitNl A ++ splitNl B := by
  induction A with
  | nil => rfl
  | cons c A ih =>
    by_cases hc : c = '\n'
    · subst hc
      rw [List.cons_append, splitNl_nl, splitNl_nl, ih]
      rfl
    · rw [List.cons_append, splitNl_cons_of_ne _ hc, splitNl_cons_of_ne _ hc, ih]
      cases hA : splitNl A with
      | nil => exact absurd hA (splitNl_ne_nil A)
      | cons l ls => rfl

theorem linesFixed_qsubGo : ∀ f s,
    (∀ L ∈ splitNl s, fixHeaderLine L = L) →
    ∀ L ∈ splitNl (qsubGo f s), fixHeaderLine L = L := by
  intro f
  induction f with
  | zero =>
    intro s h
    exact h
  | succ f ih =>
    intro s h
    by_cases hs : s = []
    · subst hs
      rw [qsubGo_nil]
      exact h
    cases hm : tryMatchAt s with
    | some gr =>
      obtain ⟨g, rest⟩ := gr
      obtain ⟨hgne, hgfree, -, ⟨pre, hprene, hpre⟩, hrest⟩ :=
        tryMatchAt_some_struct hm
      rcases hrest with hrest | ⟨w, hrest⟩
      · subst hrest
        rw [qsubGo_some_end f hs hm, splitNl_free (itemRepl_free hgfree)]
        intro L hL
        simp at hL
        subst hL
        exact fixHeaderLine_itemRepl g
      · subst hrest
        rw [qsubGo_some_nl f hs hm, splitNl_app _ (itemRepl_free hgfree)]
        have hw : ∀ L ∈ splitNl w, fixHeaderLine L = L := by
          intro L2 hL2
          apply h
          rw [hpre, splitNl_append_nl]
          exact List.mem_append_right _ hL2
        intro L hL
        rcases List.mem_cons.mp hL with h1 | h1
        · subst h1
          exact fixHeaderLine_itemRepl g
        · exact ih w hw L h1
    | none =>
      cases hd : s.dropWhile (· ≠ '\n') with
      | nil =>
        rw [qsubGo_none_free f hs hm hd]
        exact h
      | cons d r =>
        have hdnl : d = '\n' := by simpa using dropWhile_head_false hd
        subst hdnl
        rw [qsubGo_none_nl f hs hm hd,
            splitNl_app _ (all_takeWhile_true _ s)]
        have hsdec : s = s.takeWhile (· ≠ '\n') ++ '\n' :: r := by
          conv_lhs => rw [span_decomp (· ≠ '\n') s]
          rw [hd]
        have hsplit : splitNl s = s.takeWhile (· ≠ '\n') :: splitNl r := by
          conv_lhs => rw [hsdec]
          exact splitNl_app _ (all_takeWhile_true _ s)
        have hr : ∀ L ∈ splitNl r, fixHeaderLine L = L := by
          intro L2 hL2
          apply h
          rw [hsplit]
          exact List.mem_cons_of_mem _ hL2
        intro L hL
        rcases List.mem_cons.mp hL with h1 | h1
        · subst h1
          apply h
          rw [hsplit]
          exact List.mem_cons_self _ _
        · exact ih r hr L h1

theorem repairChars_idem (s0 : List Char) :
    repairChars (repairChars s0) = repairChars s0 := by
  obtain ⟨c1, hc1⟩ : ∃ c1, removeTripleDash s0 = c1 := ⟨_, rfl⟩
  obtain ⟨c2, hc2⟩ : ∃ c2, replaceTabs c1 = c2 := ⟨_, rfl⟩
  obtain ⟨c3, hc3⟩ : ∃ c3, joinNl ((splitNl c2).map fixHeaderLine) = c3 := ⟨_, rfl⟩
  obtain ⟨c4, hc4⟩ : ∃ c4, qsubGo c3.length c3 = c4 := ⟨_, rfl⟩
  have hrep : repairChars s0 = c4 := by
    show qsubGo
        (joinNl ((splitNl (replaceTabs (removeTripleDash s0))).map fixHeaderLine)).length
        (joinNl ((splitNl (replaceTabs (removeTripleDash s0))).map fixHeaderLine)) = c4
    rw [hc1, hc2, hc3, hc4]
  rw [hrep]
  have hT1 : noTriple c1 = true := hc1 ▸ noTriple_rtd s0.length s0 le_rfl
  have hT2 : noTriple c2 = true := hc2 ▸ noTriple_rt hT1
  have hmapne : (splitNl c2).map fixHeaderLine ≠ [] := by
    intro hmap
    exact splitNl_ne_nil c2 (List.map_eq_nil_iff.mp hmap)
  have hT3 : noTriple c3 = true := by
    rw [← hc3]
    refine noTriple_joinNl hmapne ?_
    intro L hL
    rw [List.mem_map] at hL
    obtain ⟨L0, hL0, rfl⟩ := hL
    exact fixHeaderLine_noTriple (noTriple_splitNl hT2 L0 hL0)
  have hT4 : noTriple c4 = true := hc4 ▸ noTriple_qsubGo c3.length c3 hT3
  have hB2 : c2.all (· ≠ '\t') = true := hc2 ▸ rt_no_tab c1
  have hB3 : c3.all (· ≠ '\t') = true := by
    rw [← hc3]
    refine allP_joinNl (by decide) hmapne ?_
    intro L hL
    rw [List.mem_map] at hL
    obtain ⟨L0, hL0, rfl⟩ := hL
    exact fixHeaderLine_all (allP_splitNl hB2 L0 hL0) (by decide)
  have hB4 : c4.all (· ≠ '\t') = true :=
    hc4 ▸ allP_qsubGo (by decide) (by decide) (by decide) (by decide)
      c3.length c3 hB3
  have hsplit3 : splitNl c3 = (splitNl c2).map fixHeaderLine := by
    rw [← hc3]
    refine splitNl_joinNl hmapne ?_
    intro L2 hL2
    rw [List.mem_map] at hL2
    obtain ⟨L0, hL0, rfl⟩ := hL2
    exact fixHeaderLine_all (splitNl_all_free c2 L0 hL0) (by decide)
  have hLines3 : ∀ L ∈ splitNl c3, fixHeaderLine L = L := by
    intro L hL
    rw [hsplit3, List.mem_map] at hL
    obtain ⟨L0, hL0, rfl⟩ := hL
    exact fixHeaderLine_idem L0
  have hLines4 : ∀ L ∈ splitNl c4, fixHeaderLine L = L := by
    rw [← hc4]
    exact linesFixed_qsubGo c3.length c3 hLines3
  have hStab : ∀ t, LineTail c4 t → lineStable t := by
    rw [← hc4]
    exact qsubGo_stable c3.length c3 le_rfl
  have hmapid : (splitNl c4).map fixHeaderLine = splitNl c4 := by
    have h1 : (splitNl c4).map fixHeaderLine = (splitNl c4).map id :=
      List.map_congr_left (fun a ha => hLines4 a ha)
    rw [h1, List.map_id]
  show qsubGo
      (joinNl ((splitNl (replaceTabs (removeTripleDash c4))).map fixHeaderLine)).length
      (joinNl ((splitNl (replaceTabs (removeTripleDash c4))).map fixHeaderLine)) = c4
  rw [rtd_id hT4, rt_id hB4, hmapid, joinNl_splitNl]
  exact qsubGo_fix c4.length c4 hStab

/-- C10: the repair transformation applied before the second parse
strategy is idempotent: for every input text, applying
`repair_yaml_content` twice yields the same text as applying it once. -/
theorem C10_repair_idempotent (content : String) :
    repair_yaml_content (repair_yaml_content content) =
      repair_yaml_content content := by
  unfold repair_yaml_content
  rw [show (String.mk (repairChars content.data)).data =
        repairChars content.data from rfl,
      repairChars_idem]
